import Mathlib

/-!
Verification of the incremental state-checkpointing engine of the watcher
indexer (src/unnamed/part_001, class Indexer).  The engine's persistence
layer (the Database class) and the per-contract hooks are outside-provided to the
given sources; where their behaviour decides a claim they are modelled from
the specification, and each such definition says so in its doc comment.

The data payload of a StateBlock is an arbitrary nested JSON-like mapping;
it is embedded as the inductive type Val below.  The deep merge used by the
engine is lodash merge (the source calls underscore.merge), whose documented
behaviour is: plain maps merge key by key recursively, arrays merge element
by element by index (extra elements of either side are kept), and any other
source value overwrites the destination value.
-/

set_option maxHeartbeats 1000000

/-- A JSON-like value: the payload stored in a StateBlock.  Maps are
association lists of string keys in insertion order, mirroring JS objects. -/
inductive Val where
  | vnull : Val
  | vbool : Bool → Val
  | vint : Int → Val
  | vstr : String → Val
  | varr : List Val → Val
  | vmap : List (String × Val) → Val

/-- First binding of a key in an association list (JS property lookup). -/
def lookupVal (k : String) : List (String × Val) → Option Val
  | [] => none
  | (k', v) :: rest => if k' == k then some v else lookupVal k rest

/-- Whether a key occurs in an association list. -/
def containsKey (k : String) : List (String × Val) → Bool
  | [] => false
  | (k', _) :: rest => k' == k || containsKey k rest

/-- Property assignment obj.key = v of JS: replace every binding of the key
(JS objects hold one), append the binding if the key is absent, and do
nothing on a non-object (sloppy-mode JS drops the write silently). -/
def mapSet (v : Val) (key : String) (newVal : Val) : Val :=
  match v with
  | .vmap kvs =>
      if containsKey key kvs then
        .vmap (kvs.map (fun kv => bif kv.1 == key then (kv.1, newVal) else kv))
      else
        .vmap (kvs ++ [(key, newVal)])
  | other => other

mutual

/-- The lodash merge of the source (underscore.merge): maps merge key by key
recursively, arrays merge index by index, and any other source value
overwrites the destination.  Mixed container kinds take the source value;
the state payloads of this engine never mix a map with an array at one key. -/
def lodashMerge : Val → Val → Val
  | .vmap a, .vmap b =>
      .vmap (mergeMaps a b ++ b.filter (fun kv => !containsKey kv.1 a))
  | .varr a, .varr b => .varr (mergeArrs a b)
  | _, b => b

/-- Merge the bindings of the destination map, taking matching source values. -/
def mergeMaps : List (String × Val) → List (String × Val) → List (String × Val)
  | [], _ => []
  | (k, v) :: rest, b =>
      (k, match lookupVal k b with
          | some w => lodashMerge v w
          | none => v) :: mergeMaps rest b

/-- Merge two arrays index by index; surplus elements of either side are kept. -/
def mergeArrs : List Val → List Val → List Val
  | a, [] => a
  | [], b => b
  | x :: a, y :: b => lodashMerge x y :: mergeArrs a b

end

/-- Pairwise distinctness of the keys of an association list. -/
def keysUnique : List (String × Val) → Bool
  | [] => true
  | (k, _) :: rest => !containsKey k rest && keysUnique rest

mutual

/-- Well-formedness of a value: every map has pairwise distinct keys, as JS
objects do.  Data decoded from a JS object always satisfies this. -/
def wfVal : Val → Bool
  | .vnull => true
  | .vbool _ => true
  | .vint _ => true
  | .vstr _ => true
  | .varr xs => wfList xs
  | .vmap kvs => keysUnique kvs && wfKvs kvs

/-- Well-formedness of every element of a list of values. -/
def wfList : List Val → Bool
  | [] => true
  | x :: xs => wfVal x && wfList xs

/-- Well-formedness of every value of an association list. -/
def wfKvs : List (String × Val) → Bool
  | [] => true
  | (_, v) :: rest => wfVal v && wfKvs rest

end

/-!
Content addressing (spec 4.1).  The source encodes the data with the
dag-cbor codec, hashes the bytes with sha256 and builds a v1 CID with the
dag-cbor codec tag 0x71.  The codec and the hash are outside-provided libraries; the
definitions below embed their documented, deterministic behaviour: canonical
CBOR (map keys sorted shortest-first then bytewise) and the FIPS 180-4
SHA-256 compression over bytes modelled as naturals below 256.
-/

/-- UTF-8 bytes of a string, as naturals (what the codec encodes and hashes). -/
def strBytes (s : String) : List Nat := s.toUTF8.toList.map (fun b => b.toNat)

/-- Bytewise lexicographic strict order on byte lists. -/
def lexLtBytes : List Nat → List Nat → Bool
  | [], [] => false
  | [], _ :: _ => true
  | _ :: _, [] => false
  | a :: as, b :: bs => decide (a < b) || (a == b && lexLtBytes as bs)

/-- Canonical CBOR key order: shorter encoded key first, ties bytewise. -/
def keyLtCbor (a b : String) : Bool :=
  decide ((strBytes a).length < (strBytes b).length) ||
    ((strBytes a).length == (strBytes b).length && lexLtBytes (strBytes a) (strBytes b))

/-- Insert one binding into a key-sorted association list. -/
def insertPairByKey (p : String × Val) : List (String × Val) → List (String × Val)
  | [] => [p]
  | q :: rest => if keyLtCbor p.1 q.1 then p :: q :: rest else q :: insertPairByKey p rest

/-- Sort the bindings of a map into canonical CBOR key order. -/
def sortPairsByKey : List (String × Val) → List (String × Val)
  | [] => []
  | p :: rest => insertPairByKey p (sortPairsByKey rest)

theorem sizeOf_insertPairByKey (p : String × Val) (l : List (String × Val)) :
    sizeOf (insertPairByKey p l) = 1 + sizeOf p + sizeOf l := by
  induction l with
  | nil => simp [insertPairByKey]
  | cons q rest ih =>
      by_cases h : keyLtCbor p.1 q.1 = true
      · simp [insertPairByKey, h]
      · simp [insertPairByKey, h, ih]; omega

theorem sizeOf_sortPairsByKey (l : List (String × Val)) :
    sizeOf (sortPairsByKey l) = sizeOf l := by
  induction l with
  | nil => simp [sortPairsByKey]
  | cons p rest ih => simp [sortPairsByKey, sizeOf_insertPairByKey, ih]

/-- CBOR head for a major type and argument, shortest form, as the dag-cbor
codec emits.  Arguments keep their low 64 bits, the width serialized. -/
def encodeHead (major n0 : Nat) : List Nat :=
  let n := n0 % 18446744073709551616
  let m := major * 32
  if n < 24 then [m + n]
  else if n < 256 then [m + 24, n]
  else if n < 65536 then [m + 25, n / 256, n % 256]
  else if n < 4294967296 then
    [m + 26, n / 16777216 % 256, n / 65536 % 256, n / 256 % 256, n % 256]
  else
    [m + 27, n / 72057594037927936 % 256, n / 281474976710656 % 256,
     n / 1099511627776 % 256, n / 4294967296 % 256, n / 16777216 % 256,
     n / 65536 % 256, n / 256 % 256, n % 256]

mutual

/-- The deterministic dag-cbor encoding of a value: null, booleans, integers
(major types 0 and 1), text strings, arrays, and maps with canonically
sorted keys. -/
def encodeDagCbor : Val → List Nat
  | .vnull => [246]
  | .vbool b => if b then [245] else [244]
  | .vint n => if 0 ≤ n then encodeHead 0 n.toNat else encodeHead 1 (-1 - n).toNat
  | .vstr s => encodeHead 3 (strBytes s).length ++ strBytes s
  | .varr xs => encodeHead 4 xs.length ++ encodeValList xs
  | .vmap kvs => encodeHead 5 kvs.length ++ encodePairs (sortPairsByKey kvs)
termination_by v => sizeOf v
decreasing_by
  all_goals simp_wf
  all_goals first
  | omega
  | (rw [sizeOf_sortPairsByKey]; omega)

/-- Concatenated encodings of the elements of an array. -/
def encodeValList : List Val → List Nat
  | [] => []
  | x :: xs => encodeDagCbor x ++ encodeValList xs
termination_by l => sizeOf l
decreasing_by
  all_goals simp_wf
  all_goals omega

/-- Concatenated encodings of the bindings of a map. -/
def encodePairs : List (String × Val) → List Nat
  | [] => []
  | (k, v) :: rest =>
      encodeHead 3 (strBytes k).length ++ strBytes k ++ encodeDagCbor v ++ encodePairs rest
termination_by l => sizeOf l
decreasing_by
  all_goals simp_wf
  all_goals omega

end

/-- Addition modulo 2 to the 32, the word arithmetic of SHA-256. -/
def add32 (a b : Nat) : Nat := (a + b) % 4294967296

/-- Right rotation of a 32-bit word. -/
def rotr32 (x n : Nat) : Nat := ((x >>> n) ||| (x <<< (32 - n))) % 4294967296

/-- Big sigma 0 of FIPS 180-4. -/
def sigma0 (x : Nat) : Nat := rotr32 x 2 ^^^ rotr32 x 13 ^^^ rotr32 x 22

/-- Big sigma 1 of FIPS 180-4. -/
def sigma1 (x : Nat) : Nat := rotr32 x 6 ^^^ rotr32 x 11 ^^^ rotr32 x 25

/-- Small sigma 0 of FIPS 180-4. -/
def ssig0 (x : Nat) : Nat := rotr32 x 7 ^^^ rotr32 x 18 ^^^ (x >>> 3)

/-- Small sigma 1 of FIPS 180-4. -/
def ssig1 (x : Nat) : Nat := rotr32 x 17 ^^^ rotr32 x 19 ^^^ (x >>> 10)

/-- The SHA-256 choice function; complement taken within 32 bits. -/
def chFn (x y z : Nat) : Nat := (x &&& y) ^^^ ((4294967295 - x % 4294967296) &&& z)

/-- The SHA-256 majority function. -/
def majFn (x y z : Nat) : Nat := (x &&& y) ^^^ (x &&& z) ^^^ (y &&& z)

/-- The eight 32-bit working words of the SHA-256 state. -/
structure Hash8 where
  a : Nat
  b : Nat
  c : Nat
  d : Nat
  e : Nat
  f : Nat
  g : Nat
  h : Nat

/-- The 64 SHA-256 round constants. -/
def sha256K : List Nat :=
  [1116352408, 1899447441, 3049323471, 3921009573,
   961987163, 1508970993, 2453635748, 2870763221,
   3624381080, 310598401, 607225278, 1426881987,
   1925078388, 2162078206, 2614888103, 3248222580,
   3835390401, 4022224774, 264347078, 604807628,
   770255983, 1249150122, 1555081692, 1996064986,
   2554220882, 2821834349, 2952996808, 3210313671,
   3336571891, 3584528711, 113926993, 338241895,
   666307205, 773529912, 1294757372, 1396182291,
   1695183700, 1986661051, 2177026350, 2456956037,
   2730485921, 2820302411, 3259730800, 3345764771,
   3516065817, 3600352804, 4094571909, 275423344,
   430227734, 506948616, 659060556, 883997877,
   958139571, 1322822218, 1537002063, 1747873779,
   1955562222, 2024104815, 2227730452, 2361852424,
   2428436474, 2756734187, 3204031479, 3329325298]

/-- The SHA-256 initial hash value. -/
def sha256H0 : Hash8 :=
  ⟨1779033703, 3144134277, 1013904242, 2773480762,
   1359893119, 2600822924, 528734635, 1541459225⟩

/-- Big-endian 32-bit words of a byte stream. -/
def wordsOfBytes : List Nat → List Nat
  | b0 :: b1 :: b2 :: b3 :: rest =>
      (b0 * 16777216 + b1 * 65536 + b2 * 256 + b3) % 4294967296 :: wordsOfBytes rest
  | _ => []

/-- Extend 16 message words to the 64-entry SHA-256 message schedule. -/
def scheduleW (w16 : List Nat) : List Nat :=
  (List.range 48).foldl
    (fun w _ =>
      let n := w.length
      w ++ [add32 (add32 (ssig1 (w.getD (n - 2) 0)) (w.getD (n - 7) 0))
                  (add32 (ssig0 (w.getD (n - 15) 0)) (w.getD (n - 16) 0))])
    w16

/-- One SHA-256 compression round. -/
def roundStep (st : Hash8) (kw : Nat × Nat) : Hash8 :=
  let t1 := add32 (add32 (add32 st.h (sigma1 st.e)) (add32 (chFn st.e st.f st.g) kw.1)) kw.2
  let t2 := add32 (sigma0 st.a) (majFn st.a st.b st.c)
  ⟨add32 t1 t2, st.a, st.b, st.c, add32 st.d t1, st.e, st.f, st.g⟩

/-- Compress one 64-byte chunk into the running hash. -/
def compressChunk (hv : Hash8) (chunk : List Nat) : Hash8 :=
  let w := scheduleW (wordsOfBytes chunk)
  let st := (sha256K.zip w).foldl roundStep hv
  ⟨add32 hv.a st.a, add32 hv.b st.b, add32 hv.c st.c, add32 hv.d st.d,
   add32 hv.e st.e, add32 hv.f st.f, add32 hv.g st.g, add32 hv.h st.h⟩

/-- Big-endian 64-bit length field of the SHA-256 padding. -/
def lengthBytes64 (n0 : Nat) : List Nat :=
  let n := n0 % 18446744073709551616
  [n / 72057594037927936 % 256, n / 281474976710656 % 256, n / 1099511627776 % 256,
   n / 4294967296 % 256, n / 16777216 % 256, n / 65536 % 256, n / 256 % 256, n % 256]

/-- SHA-256 padding for a message of the given byte length. -/
def padBytes (len : Nat) : List Nat :=
  128 :: (List.replicate ((119 - len % 64) % 64) 0 ++ lengthBytes64 (8 * len))

/-- Split a byte stream into 64-byte chunks. -/
def chunks64 : List Nat → List (List Nat)
  | [] => []
  | x :: rest => ((x :: rest).take 64) :: chunks64 ((x :: rest).drop 64)
termination_by l => l.length
decreasing_by simp; omega

/-- The four big-endian bytes of a 32-bit word. -/
def bytesOfWord (w : Nat) : List Nat :=
  [w / 16777216 % 256, w / 65536 % 256, w / 256 % 256, w % 256]

/-- The SHA-256 digest, 32 bytes, of a byte stream. -/
def sha256Bytes (msg : List Nat) : List Nat :=
  let padded := msg ++ padBytes msg.length
  let hv := (chunks64 padded).foldl compressChunk sha256H0
  bytesOfWord hv.a ++ bytesOfWord hv.b ++ bytesOfWord hv.c ++ bytesOfWord hv.d ++
  bytesOfWord hv.e ++ bytesOfWord hv.f ++ bytesOfWord hv.g ++ bytesOfWord hv.h

/-- A content identifier: version, codec tag, digest (CID.create of the
source, with version 1 and the dag-cbor code 0x71). -/
structure Cid where
  version : Nat
  codec : Nat
  digest : List Nat

/-- The content identifier of a data payload. -/
def cidOf (v : Val) : Cid := ⟨1, 113, sha256Bytes (encodeDagCbor v)⟩

/-- Hex rendering of half a byte. -/
def hexChar (n : Nat) : Char := if n < 10 then Char.ofNat (48 + n) else Char.ofNat (87 + n)

/-- Hex rendering of a byte list. -/
def bytesToHex (l : List Nat) : String :=
  String.mk (l.foldr (fun b acc => hexChar (b / 16) :: hexChar (b % 16) :: acc) [])

/-- The string form of a content identifier (cid.toString of the source,
rendered here as hex; any injective deterministic rendering serves). -/
def cidStringOf (v : Val) : String :=
  bytesToHex ([1, 113] ++ sha256Bytes (encodeDagCbor v))

/-!
The state block store and the engine operations (src/unnamed/part_001).
A BlockProgress row carries the chain block data the engine reads; an
IPLDBlock is one StateBlock row, its data held decoded (the source stores
the dag-cbor bytes and decodes on every read, a lossless round trip).
The Database class itself is not among the given sources; its operations
are modelled from spec section 4.2 and are marked so below.
-/

/-- A chain block as the engine sees it (entity BlockProgress). -/
structure BlockProgress where
  blockHash : String
  blockNumber : Nat
  cid : String
  isComplete : Bool

/-- The process-wide chain positions (entity SyncStatus). -/
structure SyncStatus where
  latestIndexedBlockNumber : Nat
  latestCanonicalBlockNumber : Nat
  latestCanonicalBlockHash : String
  latestChainHeadBlockNumber : Nat

/-- One StateBlock row (entity IPLDBlock).  The kind is the raw string
column of the source: diff_staged, diff or checkpoint. -/
structure IPLDBlock where
  blockHash : String
  blockNumber : Nat
  blockCid : String
  contractAddress : String
  cid : String
  kind : String
  data : Val

/-- The StateBlock table, in row creation order. -/
abbrev Store := List IPLDBlock

/-- The read-only surroundings of the engine: known blocks and the
sync status row. -/
structure Env where
  blocks : List BlockProgress
  syncStatus : SyncStatus

/-- Lookup of a block by hash (getBlockProgress of the source). -/
def getBlockProgress (env : Env) (blockHash : String) : Option BlockProgress :=
  env.blocks.find? (fun b => b.blockHash == blockHash)

/-- Whether a row matches an optional (blockHash, contractAddress, kind, cid)
filter. -/
def matchesFilter (r : IPLDBlock) (bh ca kd cd : Option String) : Bool :=
  (match bh with | some h => r.blockHash == h | none => true) &&
  (match ca with | some c => r.contractAddress == c | none => true) &&
  (match kd with | some k => r.kind == k | none => true) &&
  (match cd with | some c => r.cid == c | none => true)

/-- Modelled from the spec: the Database class is not among the given
sources.  Spec 4.2: get(filter) returns every StateBlock matching the
filter, never throwing on empty results. -/
def getIPLDBlocks (s : Store) (bh ca kd cd : Option String) : List IPLDBlock :=
  s.filter (fun r => matchesFilter r bh ca kd cd)

/-- Whether a row matches a latest-query filter: contract, optional kind,
optional upper bound on the block number (spec 4.2: bounded above, spec 4.4
step 4: at or below the target). -/
def latestFilter (r : IPLDBlock) (ca : String) (kd : Option String)
    (maxBN : Option Nat) : Bool :=
  r.contractAddress == ca &&
  (match kd with | some k => r.kind == k | none => true) &&
  (match maxBN with | some n => decide (r.blockNumber ≤ n) | none => true)

/-- The most recent row of a list: greatest block number, ties to the later
created (block number descending, then creation order). -/
def pickLatest (l : List IPLDBlock) : Option IPLDBlock :=
  l.foldl
    (fun acc r =>
      match acc with
      | none => some r
      | some best => if best.blockNumber ≤ r.blockNumber then some r else some best)
    none

/-- Modelled from the spec: the Database class is not among the given
sources.  Spec 4.2: latest(contractAddress, kind or null, maxBlockNumber?)
is the most recent StateBlock, optionally of one kind, optionally bounded
above by block number, ordered by block number descending then creation
order. -/
def getLatestIPLDBlock (s : Store) (ca : String) (kd : Option String)
    (maxBN : Option Nat) : Option IPLDBlock :=
  pickLatest (s.filter (fun r => latestFilter r ca kd maxBN))

/-- Whether two rows share the (blockHash, contractAddress, kind) key. -/
def sameKey (r b : IPLDBlock) : Bool :=
  r.blockHash == b.blockHash && r.contractAddress == b.contractAddress && r.kind == b.kind

/-- Modelled from the spec: the Database class is not among the given
sources.  Spec 4.2: saveOrUpdate(block) upserts keyed by (blockHash,
contractAddress, kind), overwriting data and identifier in place; a row
with no present key is appended in creation order. -/
def saveOrUpdateIPLDBlock : Store → IPLDBlock → Store
  | [], b => [b]
  | r :: rest, b => if sameKey r b then b :: rest else r :: saveOrUpdateIPLDBlock rest b

/-- Modelled from the spec: the Database class is not among the given
sources.  Spec 4.2: removeStaged(blockNumber) deletes every diff_staged row
at that block number (removeStagedIPLDBlocks of the source). -/
def removeStagedIPLDBlocks (s : Store) (blockNumber : Nat) : Store :=
  s.filter (fun r => !(r.blockNumber == blockNumber && r.kind == "diff_staged"))

/-- Sorted insertion by block number, stable for equal numbers. -/
def insertByBN (r : IPLDBlock) : List IPLDBlock → List IPLDBlock
  | [] => [r]
  | x :: xs => if r.blockNumber ≤ x.blockNumber then r :: x :: xs else x :: insertByBN r xs

/-- Stable sort of rows by ascending block number. -/
def sortByBlockNumber : List IPLDBlock → List IPLDBlock
  | [] => []
  | x :: xs => insertByBN x (sortByBlockNumber xs)

/-- Modelled from the spec: the Database class is not among the given
sources.  Spec 4.4 step 7: every diff StateBlock of the contract with block
number strictly greater than the checkpoint block number, in ascending
block-number order (getDiffIPLDBlocksByCheckpoint of the source). -/
def getDiffIPLDBlocksByCheckpoint (s : Store) (ca : String)
    (checkpointBlockNumber : Nat) : List IPLDBlock :=
  sortByBlockNumber
    (s.filter (fun r =>
      r.contractAddress == ca && r.kind == "diff" &&
      decide (checkpointBlockNumber < r.blockNumber)))

/-- The meta object written on first creation of a row (lines 437 to 449 of
the indexer): id, kind, parent link, and the eth block link. -/
def metaVal (contractAddress kind : String) (parent : Option IPLDBlock)
    (block : BlockProgress) : Val :=
  .vmap
    [("id", .vstr contractAddress),
     ("kind", .vstr kind),
     ("parent", .vmap [("/", match parent with | some p => .vstr p.cid | none => .vnull)]),
     ("ethBlock", .vmap
        [("cid", .vmap [("/", .vstr block.cid)]),
         ("num", .vint block.blockNumber)])]

/-- The meta field of a data payload. -/
def metaOf (v : Val) : Option Val :=
  match v with
  | .vmap kvs => lookupVal "meta" kvs
  | _ => none

/-- The kind string recorded in the meta of a data payload (data.meta.kind
of line 466); a missing or non-string field reads as the empty string, the
way an absent JS property serializes. -/
def kindOfData (v : Val) : String :=
  match metaOf v with
  | some (.vmap m) =>
      match lookupVal "kind" m with
      | some (.vstr s) => s
      | _ => ""
  | _ => ""

/-- The state field of a data payload; null when absent. -/
def stateOf (v : Val) : Val :=
  match v with
  | .vmap kvs => (lookupVal "state" kvs).getD .vnull
  | _ => .vnull

/-- The parent link of a data payload (data.meta.parent of the source,
the value under the slash key); null when absent. -/
def parentOf (v : Val) : Val :=
  match metaOf v with
  | some (.vmap m) =>
      match lookupVal "parent" m with
      | some (.vmap p) => (lookupVal "/" p).getD .vnull
      | _ => .vnull
  | _ => .vnull

/-- prepareIPLDBlock of the indexer (lines 412 to 471): fetch the row for
(block, contract, kind), assert at most one, deep-merge into an existing
row's data or create the data with fresh meta whose parent is the latest
prior StateBlock of any kind at or below this block number; then encode,
hash, and build the row with the new cid and the kind recorded in meta. -/
def prepareIPLDBlock (s : Store) (block : BlockProgress) (contractAddress : String)
    (data : Val) (kind : String) : Except String IPLDBlock :=
  if ["diff", "checkpoint", "diff_staged"].contains kind then
    let current := getIPLDBlocks s (some block.blockHash) (some contractAddress) (some kind) none
    if current.length ≤ 1 then
      let dataFinal :=
        match current.head? with
        | some old => lodashMerge old.data data
        | none =>
            let parentIPLDBlock := getLatestIPLDBlock s contractAddress none (some block.blockNumber)
            mapSet data "meta" (metaVal contractAddress kind parentIPLDBlock block)
      Except.ok
        { blockHash := block.blockHash
          blockNumber := block.blockNumber
          blockCid := block.cid
          contractAddress := contractAddress
          cid := cidStringOf dataFinal
          kind := kindOfData dataFinal
          data := dataFinal }
    else Except.error "There can be at most one IPLDBlock for a key"
  else Except.error "Invalid kind"

/-- createDiffStaged of the indexer (lines 205 to 212): require the block,
prepare a diff_staged row and upsert it. -/
def createDiffStaged (env : Env) (s : Store) (contractAddress blockHash : String)
    (data : Val) : Except String Store :=
  match getBlockProgress env blockHash with
  | none => Except.error "assert block"
  | some block =>
      match prepareIPLDBlock s block contractAddress data "diff_staged" with
      | .error e => .error e
      | .ok ib => .ok (saveOrUpdateIPLDBlock s ib)

/-- createDiff of the indexer (lines 231 to 247): require the block, require
a latest checkpoint for the contract, require it not to sit at this very
block hash, then prepare a diff row and upsert it. -/
def createDiff (env : Env) (s : Store) (contractAddress blockHash : String)
    (data : Val) : Except String Store :=
  match getBlockProgress env blockHash with
  | none => Except.error "assert block"
  | some block =>
      match getLatestIPLDBlock s contractAddress (some "checkpoint") none with
      | none => Except.error "Initial checkpoint does not exist"
      | some checkpoint =>
          if checkpoint.blockHash == block.blockHash then
            Except.error "Checkpoint already created for the block hash"
          else
            match prepareIPLDBlock s block contractAddress data "diff" with
            | .error e => .error e
            | .ok ib => .ok (saveOrUpdateIPLDBlock s ib)

/-- The for-loop of finalizeDiffStaged: create a permanent diff from each
staged row in turn, threading the store; a thrown error aborts the loop. -/
def finalizeLoop (env : Env) : Store → List IPLDBlock → Except String Store
  | s, [] => .ok s
  | s, sb :: rest =>
      match createDiff env s sb.contractAddress sb.blockHash sb.data with
      | .error e => .error e
      | .ok s1 => finalizeLoop env s1 rest

/-- finalizeDiffStaged of the indexer (lines 214 to 229): fetch the staged
rows of the block, create a permanent diff from each in turn, then delete
every staged row at that block number. -/
def finalizeDiffStaged (env : Env) (s : Store) (blockHash : String) :
    Except String Store :=
  match getBlockProgress env blockHash with
  | none => Except.error "assert block"
  | some block =>
      match finalizeLoop env s
          (getIPLDBlocks s (some block.blockHash) none (some "diff_staged") none) with
      | .error e => .error e
      | .ok s2 => Except.ok (removeStagedIPLDBlocks s2 block.blockNumber)

/-- processCanonicalBlock of the indexer (lines 195 to 203): finalize the
staged diffs, then run the outside-provided createStateDiff hook.  The hook lives
in the hooks module, outside the given sources; it is passed in as a store
transformer (spec 4.5). -/
def processCanonicalBlock (env : Env) (stateDiffHook : Store → Except String Store)
    (s : Store) (blockHash : String) : Except String Store :=
  match finalizeDiffStaged env s blockHash with
  | .error e => .error e
  | .ok s1 => stateDiffHook s1

/-- The interval gate of createCheckpoint (line 334), with the JS truthiness
of checkpointInterval (absent or zero skips the gate) and JS signed
subtraction. -/
def intervalGate (iv : Option Nat) (checkpointBN currentBN : Nat) : Bool :=
  match iv with
  | none => false
  | some i => i != 0 && decide ((checkpointBN : Int) > (currentBN : Int) - (i : Int))

/-- createCheckpoint of the indexer (lines 296 to 366).  The target block is
the given hash or the latest canonical one; explicit data is persisted
directly; otherwise the block must be complete and inside the canonical
region, a prior checkpoint must exist at or below it, the interval gate may
skip, the outside-provided createStateCheckpoint hook (outside the given sources,
passed in, spec section 6) may replace the default compaction, and the
default path folds every later diff into the checkpoint state in ascending
block order.  Returns the optional block hash the source returns. -/
def createCheckpoint (env : Env) (checkpointHook : String → String → Bool)
    (s : Store) (contractAddress : String) (blockHash : Option String)
    (data : Option Val) (checkpointInterval : Option Nat) :
    Except String (Store × Option String) :=
  let sync := env.syncStatus
  let hashToUse := blockHash.getD sync.latestCanonicalBlockHash
  match getBlockProgress env hashToUse with
  | none => Except.error "assert currentBlock"
  | some currentBlock =>
      match data with
      | some d =>
          (match prepareIPLDBlock s currentBlock contractAddress d "checkpoint" with
           | .error e => .error e
           | .ok ib => .ok (saveOrUpdateIPLDBlock s ib, none))
      | none =>
          if !currentBlock.isComplete then
            Except.error "Block for a checkpoint should be marked as complete"
          else if decide (sync.latestCanonicalBlockNumber < currentBlock.blockNumber) then
            Except.error "Block for a checkpoint should be in the pruned region"
          else
            match getLatestIPLDBlock s contractAddress (some "checkpoint")
                (some currentBlock.blockNumber) with
            | none => Except.error "assert checkpointBlock"
            | some checkpointBlock =>
                if intervalGate checkpointInterval checkpointBlock.blockNumber
                    currentBlock.blockNumber then
                  Except.ok (s, none)
                else if checkpointHook contractAddress currentBlock.blockHash then
                  Except.ok (s, some currentBlock.blockHash)
                else
                  let diffBlocks := getDiffIPLDBlocksByCheckpoint s contractAddress
                    checkpointBlock.blockNumber
                  let newState := diffBlocks.foldl
                    (fun acc db => lodashMerge acc (stateOf db.data))
                    (stateOf checkpointBlock.data)
                  match prepareIPLDBlock s currentBlock contractAddress
                      (Val.vmap [("state", newState)]) "checkpoint" with
                  | .error e => .error e
                  | .ok ib => .ok (saveOrUpdateIPLDBlock s ib, some currentBlock.blockHash)

/-- One staging operation, for sequences of engine calls (spec section 8,
uniqueness). -/
inductive StagingOp where
  | stageDiff (contractAddress blockHash : String) (data : Val) : StagingOp
  | permDiff (contractAddress blockHash : String) (data : Val) : StagingOp
  | checkpointOp (contractAddress : String) (blockHash : Option String)
      (data : Option Val) (interval : Option Nat) : StagingOp

/-- Run one staging operation; a thrown error leaves the store as it was,
which is what the engine's callers observe (all asserts precede writes). -/
def applyOp (env : Env) (checkpointHook : String → String → Bool) (s : Store) :
    StagingOp → Store
  | .stageDiff c bh d =>
      match createDiffStaged env s c bh d with
      | .ok s1 => s1
      | .error _ => s
  | .permDiff c bh d =>
      match createDiff env s c bh d with
      | .ok s1 => s1
      | .error _ => s
  | .checkpointOp c bh d iv =>
      match createCheckpoint env checkpointHook s c bh d iv with
      | .ok (s1, _) => s1
      | .error _ => s

/-- Run a sequence of staging operations left to right. -/
def applyOps (env : Env) (checkpointHook : String → String → Bool)
    (ops : List StagingOp) (s : Store) : Store :=
  ops.foldl (applyOp env checkpointHook) s

/-- Uniqueness of rows: no two rows of the store share the (blockHash,
contractAddress, kind) key (spec invariant I1). -/
def storeUniq (s : Store) : Prop :=
  s.Pairwise (fun a b => sameKey a b = false)

/-- The merged binding list of two maps, as lodashMerge builds it. -/
def mergedKvs (a b : List (String × Val)) : List (String × Val) :=
  mergeMaps a b ++ b.filter (fun kv => !containsKey kv.1 a)

/-! Lemmas on association-list lookup and property assignment. -/

theorem lodashMerge_map_map (a b : List (String × Val)) :
    lodashMerge (.vmap a) (.vmap b) = .vmap (mergedKvs a b) := by
  simp [lodashMerge, mergedKvs]

theorem lookupVal_append (k : String) (l1 l2 : List (String × Val)) :
    lookupVal k (l1 ++ l2) =
      match lookupVal k l1 with
      | some v => some v
      | none => lookupVal k l2 := by
  induction l1 with
  | nil => simp [lookupVal]
  | cons p rest ih =>
      obtain ⟨k', v⟩ := p
      by_cases h : (k' == k) = true
      · simp [lookupVal, h]
      · simp [lookupVal, h, ih]

theorem containsKey_append (k : String) (l1 l2 : List (String × Val)) :
    containsKey k (l1 ++ l2) = (containsKey k l1 || containsKey k l2) := by
  induction l1 with
  | nil => simp [containsKey]
  | cons p rest ih =>
      obtain ⟨k', v⟩ := p
      simp [containsKey, ih, Bool.or_assoc]

theorem containsKey_of_mem {k : String} {v : Val} {l : List (String × Val)}
    (h : (k, v) ∈ l) : containsKey k l = true := by
  induction l with
  | nil => simp at h
  | cons p rest ih =>
      rcases List.mem_cons.mp h with h1 | h2
      · obtain ⟨k', v'⟩ := p
        cases h1
        simp [containsKey]
      · obtain ⟨k', v'⟩ := p
        simp [containsKey, ih h2]

theorem lookupVal_eq_none_iff (k : String) (l : List (String × Val)) :
    lookupVal k l = none ↔ containsKey k l = false := by
  induction l with
  | nil => simp [lookupVal, containsKey]
  | cons p rest ih =>
      obtain ⟨k', v⟩ := p
      by_cases h : (k' == k) = true
      · simp [lookupVal, containsKey, h]
      · simp [lookupVal, containsKey, h, ih]

theorem mem_of_lookupVal {k : String} {v : Val} {l : List (String × Val)}
    (h : lookupVal k l = some v) : (k, v) ∈ l := by
  induction l with
  | nil => simp [lookupVal] at h
  | cons p rest ih =>
      obtain ⟨k', v'⟩ := p
      by_cases hk : (k' == k) = true
      · simp [lookupVal, hk] at h
        subst h
        have : k' = k := by simpa using hk
        subst this
        exact List.mem_cons_self _ _
      · simp [lookupVal, hk] at h
        exact List.mem_cons_of_mem _ (ih h)

theorem lookupVal_map_replace_self (kvs : List (String × Val)) (key : String) (M : Val)
    (hc : containsKey key kvs = true) :
    lookupVal key (kvs.map (fun kv => bif kv.1 == key then (kv.1, M) else kv)) = some M := by
  induction kvs with
  | nil => simp [containsKey] at hc
  | cons p rest ih =>
      obtain ⟨k', v'⟩ := p
      by_cases h : (k' == key) = true
      · simp [lookupVal, h]
      · simp [containsKey, h] at hc
        simp [lookupVal, h, ih hc]

theorem lookupVal_map_replace_other (kvs : List (String × Val)) (key : String) (M : Val)
    (k2 : String) (hne : k2 ≠ key) :
    lookupVal k2 (kvs.map (fun kv => bif kv.1 == key then (kv.1, M) else kv)) =
      lookupVal k2 kvs := by
  induction kvs with
  | nil => simp [lookupVal]
  | cons p rest ih =>
      obtain ⟨k', v'⟩ := p
      by_cases h : (k' == key) = true
      · have hk : k' = key := by simpa using h
        have h2 : (k' == k2) = false := by
          subst hk
          exact beq_false_of_ne (fun hcontra => hne hcontra.symm)
        simp [lookupVal, h, h2]
        exact ih
      · by_cases h2 : (k' == k2) = true
        · simp [lookupVal, h, h2]
        · simp [lookupVal, h, h2, ih]

theorem mapSet_map_exists (kvs : List (String × Val)) (key : String) (M : Val) :
    ∃ kvs2, mapSet (Val.vmap kvs) key M = Val.vmap kvs2 ∧
      lookupVal key kvs2 = some M ∧
      (∀ k2, k2 ≠ key → lookupVal k2 kvs2 = lookupVal k2 kvs) := by
  by_cases hc : containsKey key kvs = true
  · exact ⟨kvs.map (fun kv => bif kv.1 == key then (kv.1, M) else kv),
      by simp [mapSet, hc],
      lookupVal_map_replace_self kvs key M hc,
      fun k2 hne => lookupVal_map_replace_other kvs key M k2 hne⟩
  · refine ⟨kvs ++ [(key, M)], by simp [mapSet, hc], ?_, ?_⟩
    · rw [lookupVal_append]
      have : lookupVal key kvs = none := by
        rw [lookupVal_eq_none_iff]
        simpa using hc
      simp [this, lookupVal]
    · intro k2 hne
      rw [lookupVal_append]
      have h2 : (key == k2) = false := beq_false_of_ne (fun hcontra => hne hcontra.symm)
      cases hl : lookupVal k2 kvs with
      | some v => simp
      | none => simp [lookupVal, h2]

theorem lookupVal_mergeMaps (a b : List (String × Val)) (k : String) :
    lookupVal k (mergeMaps a b) =
      (lookupVal k a).map (fun v =>
        match lookupVal k b with
        | some w => lodashMerge v w
        | none => v) := by
  induction a with
  | nil => simp [mergeMaps, lookupVal]
  | cons p rest ih =>
      obtain ⟨k', v'⟩ := p
      by_cases h : (k' == k) = true
      · have : k' = k := by simpa using h
        subst this
        simp [mergeMaps, lookupVal, h]
      · simp [mergeMaps, lookupVal, h, ih]

theorem lookupVal_filter_not_contains (b a : List (String × Val)) (k : String) :
    lookupVal k (b.filter (fun kv => !containsKey kv.1 a)) =
      if containsKey k a then none else lookupVal k b := by
  induction b with
  | nil => simp [lookupVal]
  | cons p rest ih =>
      obtain ⟨k', v'⟩ := p
      by_cases hc : containsKey k' a = true
      · cases hca : containsKey k a with
        | false =>
            have hk : (k' == k) = false := by
              apply beq_false_of_ne
              intro he
              subst he
              rw [hca] at hc
              exact absurd hc (by simp)
            simp [List.filter_cons, hc, ih, hca, lookupVal, hk]
        | true => simp [List.filter_cons, hc, ih, hca]
      · by_cases hk : (k' == k) = true
        · have he : k' = k := by simpa using hk
          subst he
          have hca : containsKey k' a = false := by simpa using hc
          simp [List.filter_cons, hc, lookupVal, hk, hca]
        · simp [List.filter_cons, hc, lookupVal, hk, ih]

theorem lookupVal_mergedKvs (a b : List (String × Val)) (k : String) :
    lookupVal k (mergedKvs a b) =
      match lookupVal k a, lookupVal k b with
      | some v, some w => some (lodashMerge v w)
      | some v, none => some v
      | none, r => r := by
  rw [mergedKvs, lookupVal_append, lookupVal_mergeMaps, lookupVal_filter_not_contains]
  cases ha : lookupVal k a with
  | some v => cases hb : lookupVal k b <;> simp
  | none =>
      have hca : containsKey k a = false := (lookupVal_eq_none_iff k a).mp ha
      cases hb : lookupVal k b <;> simp [hca]

theorem sizeOf_lt_of_mem_varr {x : Val} {xs : List Val} (h : x ∈ xs) :
    sizeOf x < sizeOf (Val.varr xs) := by
  have := List.sizeOf_lt_of_mem h
  simp only [Val.varr.sizeOf_spec]
  omega

theorem sizeOf_lt_of_mem_vmap {kv : String × Val} {kvs : List (String × Val)}
    (h : kv ∈ kvs) : sizeOf kv.2 < sizeOf (Val.vmap kvs) := by
  have h1 := List.sizeOf_lt_of_mem h
  obtain ⟨k, v⟩ := kv
  simp only [Val.vmap.sizeOf_spec]
  simp at h1 ⊢
  omega

theorem wfList_mem {xs : List Val} (h : wfList xs = true) {x : Val} (hm : x ∈ xs) :
    wfVal x = true := by
  induction xs with
  | nil => simp at hm
  | cons y rest ih =>
      simp [wfList] at h
      rcases List.mem_cons.mp hm with h1 | h1
      · subst h1; exact h.1
      · exact ih h.2 h1

theorem wfKvs_mem {kvs : List (String × Val)} (h : wfKvs kvs = true)
    {kv : String × Val} (hm : kv ∈ kvs) : wfVal kv.2 = true := by
  induction kvs with
  | nil => simp at hm
  | cons p rest ih =>
      obtain ⟨k', v'⟩ := p
      simp [wfKvs] at h
      rcases List.mem_cons.mp hm with h1 | h1
      · subst h1; exact h.1
      · exact ih h.2 h1

theorem lookupVal_self_of_unique {kvs : List (String × Val)}
    (hu : keysUnique kvs = true) {k : String} {v : Val} (hm : (k, v) ∈ kvs) :
    lookupVal k kvs = some v := by
  induction kvs with
  | nil => simp at hm
  | cons p rest ih =>
      obtain ⟨k', v'⟩ := p
      simp [keysUnique] at hu
      rcases List.mem_cons.mp hm with h1 | h1
      · rw [Prod.mk.injEq] at h1
        obtain ⟨he1, he2⟩ := h1
        subst he1
        subst he2
        simp [lookupVal]
      · have hk : (k' == k) = false := by
          apply beq_false_of_ne
          intro he
          subst he
          exact absurd (containsKey_of_mem h1) (by simp [hu.1])
        simp [lookupVal, hk, ih hu.2 h1]

theorem mergeArrs_self (xs : List Val) (h : ∀ x ∈ xs, lodashMerge x x = x) :
    mergeArrs xs xs = xs := by
  induction xs with
  | nil => simp [mergeArrs]
  | cons x rest ih =>
      simp [mergeArrs, h x (by simp)]
      exact ih (fun y hy => h y (by simp [hy]))

theorem mergeMaps_diag (a b : List (String × Val))
    (h1 : ∀ kv ∈ a, lookupVal kv.1 b = some kv.2)
    (h2 : ∀ kv ∈ a, lodashMerge kv.2 kv.2 = kv.2) :
    mergeMaps a b = a := by
  induction a with
  | nil => simp [mergeMaps]
  | cons p rest ih =>
      obtain ⟨k, v⟩ := p
      have e1 := h1 (k, v) (by simp)
      have e2 := h2 (k, v) (by simp)
      simp at e1 e2
      simp [mergeMaps, e1, e2]
      exact ih (fun kv hkv => h1 kv (by simp [hkv])) (fun kv hkv => h2 kv (by simp [hkv]))

theorem filter_not_contains_self (kvs : List (String × Val)) :
    kvs.filter (fun kv => !containsKey kv.1 kvs) = [] := by
  rw [List.filter_eq_nil_iff]
  intro kv hkv
  have : containsKey kv.1 kvs = true := containsKey_of_mem (show (kv.1, kv.2) ∈ kvs by simpa using hkv)
  simp [this]

/-- Merging a well-formed value with itself changes nothing: the key
algebraic fact behind staging idempotence (spec section 8). -/
theorem lodashMerge_self (v : Val) (hv : wfVal v = true) : lodashMerge v v = v := by
  suffices h : ∀ (n : Nat) (v : Val), sizeOf v ≤ n → wfVal v = true → lodashMerge v v = v by
    exact h (sizeOf v) v le_rfl hv
  intro n
  induction n with
  | zero =>
      intro v h _
      exfalso
      cases v <;> simp at h
  | succ n ih =>
      intro v hle hw
      cases v with
      | vnull => simp [lodashMerge]
      | vbool b => simp [lodashMerge]
      | vint i => simp [lodashMerge]
      | vstr s => simp [lodashMerge]
      | varr xs =>
          simp only [lodashMerge, Val.varr.injEq]
          apply mergeArrs_self
          intro x hx
          apply ih x
          · have := sizeOf_lt_of_mem_varr hx
            simp only [Val.varr.sizeOf_spec] at this hle
            omega
          · exact wfList_mem (by simpa [wfVal] using hw) hx
      | vmap kvs =>
          rw [lodashMerge_map_map, mergedKvs, filter_not_contains_self, List.append_nil]
          have hw2 : keysUnique kvs = true ∧ wfKvs kvs = true := by
            simpa [wfVal, Bool.and_eq_true] using hw
          rw [mergeMaps_diag]
          · intro kv hkv
            exact lookupVal_self_of_unique hw2.1 (show (kv.1, kv.2) ∈ kvs by simpa using hkv)
          · intro kv hkv
            apply ih kv.2
            · have := sizeOf_lt_of_mem_vmap hkv
              simp only [Val.vmap.sizeOf_spec] at this hle
              omega
            · exact wfKvs_mem hw2.2 hkv

/-! Lemmas on the store operations. -/

theorem saveOrUpdate_of_no_match (s : Store) (b : IPLDBlock)
    (h : ∀ r ∈ s, sameKey r b = false) : saveOrUpdateIPLDBlock s b = s ++ [b] := by
  induction s with
  | nil => simp [saveOrUpdateIPLDBlock]
  | cons r rest ih =>
      have hr := h r (by simp)
      simp [saveOrUpdateIPLDBlock, hr]
      exact ih (fun x hx => h x (by simp [hx]))

theorem saveOrUpdate_replace_last (s : Store) (row b : IPLDBlock)
    (h : ∀ r ∈ s, sameKey r b = false) (hk : sameKey row b = true) :
    saveOrUpdateIPLDBlock (s ++ [row]) b = s ++ [b] := by
  induction s with
  | nil => simp [saveOrUpdateIPLDBlock, hk]
  | cons r rest ih =>
      have hr := h r (by simp)
      simp [saveOrUpdateIPLDBlock, hr]
      exact ih (fun x hx => h x (by simp [hx]))

theorem mem_saveOrUpdate {s : Store} {b x : IPLDBlock}
    (h : x ∈ saveOrUpdateIPLDBlock s b) : x ∈ s ∨ x = b := by
  induction s with
  | nil =>
      simp [saveOrUpdateIPLDBlock] at h
      exact Or.inr h
  | cons r rest ih =>
      by_cases hk : sameKey r b = true
      · simp [saveOrUpdateIPLDBlock, hk] at h
        rcases h with h | h
        · exact Or.inr h
        · exact Or.inl (by simp [h])
      · simp only [saveOrUpdateIPLDBlock, if_neg hk, List.mem_cons] at h
        rcases h with h | h
        · exact Or.inl (by simp [h])
        · rcases ih h with h2 | h2
          · exact Or.inl (by simp [h2])
          · exact Or.inr h2

theorem sameKey_congr {r b : IPLDBlock} (h : sameKey r b = true) (x : IPLDBlock) :
    sameKey b x = sameKey r x := by
  simp [sameKey] at h
  obtain ⟨⟨h1, h2⟩, h3⟩ := h
  simp [sameKey, h1, h2, h3]

theorem storeUniq_saveOrUpdate (s : Store) (b : IPLDBlock) (h : storeUniq s) :
    storeUniq (saveOrUpdateIPLDBlock s b) := by
  induction s with
  | nil => simp [saveOrUpdateIPLDBlock, storeUniq]
  | cons r rest ih =>
      rw [storeUniq, List.pairwise_cons] at h
      by_cases hk : sameKey r b = true
      · rw [storeUniq]
        simp only [saveOrUpdateIPLDBlock, if_pos hk, List.pairwise_cons]
        exact ⟨fun x hx => by rw [sameKey_congr hk x]; exact h.1 x hx, h.2⟩
      · rw [storeUniq]
        simp only [saveOrUpdateIPLDBlock, if_neg hk, List.pairwise_cons]
        constructor
        · intro x hx
          rcases mem_saveOrUpdate hx with h2 | h2
          · exact h.1 x h2
          · subst h2
            simpa using hk
        · exact ih h.2

theorem matches_full_key_sameKey {r x : IPLDBlock} {bh ca k : String}
    (hr : matchesFilter r (some bh) (some ca) (some k) none = true)
    (hx : matchesFilter x (some bh) (some ca) (some k) none = true) :
    sameKey r x = true := by
  simp [matchesFilter] at hr hx
  obtain ⟨⟨hr1, hr2⟩, hr3⟩ := hr
  obtain ⟨⟨hx1, hx2⟩, hx3⟩ := hx
  simp [sameKey, hr1, hr2, hr3, hx1, hx2, hx3]

theorem storeUniq_filter_le_one (s : Store) (h : storeUniq s) (bh ca k : String) :
    (getIPLDBlocks s (some bh) (some ca) (some k) none).length ≤ 1 := by
  induction s with
  | nil => simp [getIPLDBlocks]
  | cons r rest ih =>
      rw [storeUniq, List.pairwise_cons] at h
      rw [getIPLDBlocks, List.filter_cons]
      by_cases hr : matchesFilter r (some bh) (some ca) (some k) none = true
      · rw [if_pos hr]
        have hrest : rest.filter (fun x => matchesFilter x (some bh) (some ca) (some k) none) = [] := by
          rw [List.filter_eq_nil_iff]
          intro x hx hmx
          have := matches_full_key_sameKey hr hmx
          rw [h.1 x hx] at this
          exact absurd this (by simp)
        simp [hrest]
      · rw [if_neg hr]
        exact ih h.2

theorem no_match_of_filter_empty {s : Store} {bh ca k : String}
    (he : getIPLDBlocks s (some bh) (some ca) (some k) none = [])
    {b : IPLDBlock} (hb : b.blockHash = bh) (hc : b.contractAddress = ca)
    (hk : b.kind = k) : ∀ r ∈ s, sameKey r b = false := by
  intro r hr
  rw [getIPLDBlocks, List.filter_eq_nil_iff] at he
  cases hh : sameKey r b with
  | false => rfl
  | true =>
      exfalso
      apply he r hr
      simp [sameKey] at hh
      obtain ⟨⟨h1, h2⟩, h3⟩ := hh
      simp [matchesFilter, h1, h2, h3, hb, hc, hk]

theorem pickLatest_go_mem (l : List IPLDBlock) :
    ∀ (acc : Option IPLDBlock) (r : IPLDBlock),
      l.foldl
        (fun acc r =>
          match acc with
          | none => some r
          | some best => if best.blockNumber ≤ r.blockNumber then some r else some best)
        acc = some r →
      r ∈ l ∨ acc = some r := by
  induction l with
  | nil =>
      intro acc r h
      simp at h
      exact Or.inr (by rw [h])
  | cons x rest ih =>
      intro acc r h
      rw [List.foldl_cons] at h
      rcases ih _ r h with h2 | h2
      · exact Or.inl (by simp [h2])
      · cases acc with
        | none =>
            simp at h2
            exact Or.inl (by simp [h2])
        | some best =>
            by_cases hle : best.blockNumber ≤ x.blockNumber
            · simp [hle] at h2
              exact Or.inl (by simp [h2])
            · simp [hle] at h2
              exact Or.inr (by rw [h2])

theorem getLatest_mem {s : Store} {ca : String} {kd : Option String}
    {mb : Option Nat} {r : IPLDBlock}
    (h : getLatestIPLDBlock s ca kd mb = some r) :
    r ∈ s ∧ latestFilter r ca kd mb = true := by
  rw [getLatestIPLDBlock, pickLatest] at h
  rcases pickLatest_go_mem _ none r h with h2 | h2
  · exact List.mem_filter.mp h2
  · simp at h2

theorem getLatest_le_bound {s : Store} {ca : String} {kd : Option String}
    {n : Nat} {r : IPLDBlock}
    (h : getLatestIPLDBlock s ca kd (some n) = some r) : r.blockNumber ≤ n := by
  have h2 := (getLatest_mem h).2
  simp [latestFilter] at h2
  obtain ⟨⟨h3, h4⟩, h5⟩ := h2
  exact h5

theorem getLatest_kind {s : Store} {ca k : String} {mb : Option Nat} {r : IPLDBlock}
    (h : getLatestIPLDBlock s ca (some k) mb = some r) : r.kind = k := by
  have h2 := (getLatest_mem h).2
  simp [latestFilter] at h2
  obtain ⟨⟨h3, h4⟩, h5⟩ := h2
  exact h4

theorem getLatest_append_kind_ne (s t : Store) (ca k : String) (mb : Option Nat)
    (h : ∀ r ∈ t, r.kind ≠ k) :
    getLatestIPLDBlock (s ++ t) ca (some k) mb = getLatestIPLDBlock s ca (some k) mb := by
  rw [getLatestIPLDBlock, getLatestIPLDBlock, List.filter_append]
  have ht : t.filter (fun r => latestFilter r ca (some k) mb) = [] := by
    rw [List.filter_eq_nil_iff]
    intro r hr hm
    simp [latestFilter] at hm
    obtain ⟨⟨h3, h4⟩, h5⟩ := hm
    exact h r hr h4
  rw [ht, List.append_nil]

theorem getIPLDBlocks_append (s t : Store) (bh ca kd cd : Option String) :
    getIPLDBlocks (s ++ t) bh ca kd cd = getIPLDBlocks s bh ca kd cd ++ getIPLDBlocks t bh ca kd cd := by
  rw [getIPLDBlocks, getIPLDBlocks, getIPLDBlocks, List.filter_append]

theorem createDiffStaged_ok_shape {env : Env} {s : Store} {c bh : String} {d : Val}
    {s1 : Store} (h : createDiffStaged env s c bh d = .ok s1) :
    ∃ ib, s1 = saveOrUpdateIPLDBlock s ib := by
  simp only [createDiffStaged] at h
  split at h
  · exact absurd h (by simp)
  · split at h
    · exact absurd h (by simp)
    · simp at h
      exact ⟨_, h.symm⟩

theorem createDiff_ok_shape {env : Env} {s : Store} {c bh : String} {d : Val}
    {s1 : Store} (h : createDiff env s c bh d = .ok s1) :
    ∃ ib, s1 = saveOrUpdateIPLDBlock s ib := by
  simp only [createDiff] at h
  split at h
  · exact absurd h (by simp)
  · split at h
    · exact absurd h (by simp)
    · split at h
      · exact absurd h (by simp)
      · split at h
        · exact absurd h (by simp)
        · simp at h
          exact ⟨_, h.symm⟩

theorem createCheckpoint_ok_shape {env : Env} {hook : String → String → Bool}
    {s : Store} {c : String} {bh : Option String} {d : Option Val}
    {iv : Option Nat} {s1 : Store} {ret : Option String}
    (h : createCheckpoint env hook s c bh d iv = .ok (s1, ret)) :
    s1 = s ∨ ∃ ib, s1 = saveOrUpdateIPLDBlock s ib := by
  simp only [createCheckpoint] at h
  split at h
  · exact absurd h (by simp)
  · split at h
    · split at h
      · exact absurd h (by simp)
      · simp at h
        exact Or.inr ⟨_, h.1.symm⟩
    · split at h
      · exact absurd h (by simp)
      · split at h
        · exact absurd h (by simp)
        · split at h
          · exact absurd h (by simp)
          · split at h
            · simp at h
              exact Or.inl h.1.symm
            · split at h
              · simp at h
                exact Or.inl h.1.symm
              · split at h
                · exact absurd h (by simp)
                · simp at h
                  exact Or.inr ⟨_, h.1.symm⟩

theorem storeUniq_applyOp (env : Env) (hook : String → String → Bool)
    (s : Store) (op : StagingOp) (h : storeUniq s) :
    storeUniq (applyOp env hook s op) := by
  cases op with
  | stageDiff c bh d =>
      simp only [applyOp]
      cases he : createDiffStaged env s c bh d with
      | error e => exact h
      | ok s1 =>
          obtain ⟨ib, rfl⟩ := createDiffStaged_ok_shape he
          exact storeUniq_saveOrUpdate s ib h
  | permDiff c bh d =>
      simp only [applyOp]
      cases he : createDiff env s c bh d with
      | error e => exact h
      | ok s1 =>
          obtain ⟨ib, rfl⟩ := createDiff_ok_shape he
          exact storeUniq_saveOrUpdate s ib h
  | checkpointOp c bh d iv =>
      simp only [applyOp]
      cases he : createCheckpoint env hook s c bh d iv with
      | error e => exact h
      | ok p =>
          obtain ⟨s1, ret⟩ := p
          rcases createCheckpoint_ok_shape he with h2 | ⟨ib, h2⟩
          · subst h2; exact h
          · subst h2; exact storeUniq_saveOrUpdate s ib h

/-- C3: after any sequence of staging operations run sequentially on a store
with unique keys, at most one StateBlock exists for any (blockHash,
contractAddress, kind) triple; an operation that targets an existing triple
updates that row in place (saveOrUpdateIPLDBlock) rather than inserting a
second one. -/
theorem c3_staging_uniqueness (env : Env) (checkpointHook : String → String → Bool)
    (ops : List StagingOp) (s : Store) (h : storeUniq s) :
    ∀ bh ca k,
      (getIPLDBlocks (applyOps env checkpointHook ops s)
        (some bh) (some ca) (some k) none).length ≤ 1 := by
  have huniq : storeUniq (applyOps env checkpointHook ops s) := by
    rw [applyOps]
    induction ops generalizing s with
    | nil => simpa using h
    | cons op rest ih => exact ih _ (storeUniq_applyOp env checkpointHook s op h)
  intro bh ca k
  exact storeUniq_filter_le_one _ huniq bh ca k

/-- Witness for C3 at the empty store and a concrete operation sequence. -/
theorem c3_staging_uniqueness_witness :
    storeUniq ([] : Store) ∧
      ∀ bh ca k,
        (getIPLDBlocks
          (applyOps ⟨[⟨"h1", 5, "bc1", true⟩], ⟨5, 5, "h1", 5⟩⟩ (fun _ _ => false)
            [StagingOp.stageDiff "c" "h1" (Val.vmap [("state", Val.vint 1)]),
             StagingOp.stageDiff "c" "h1" (Val.vmap [("state", Val.vint 2)])] [])
          (some bh) (some ca) (some k) none).length ≤ 1 :=
  ⟨by simp [storeUniq],
   c3_staging_uniqueness ⟨[⟨"h1", 5, "bc1", true⟩], ⟨5, 5, "h1", 5⟩⟩ (fun _ _ => false)
     [StagingOp.stageDiff "c" "h1" (Val.vmap [("state", Val.vint 1)]),
      StagingOp.stageDiff "c" "h1" (Val.vmap [("state", Val.vint 2)])] []
     (by simp [storeUniq])⟩

/-! Characterization of prepareIPLDBlock and of the meta fields it writes. -/

theorem prepareIPLDBlock_create {s : Store} {block : BlockProgress} {c : String}
    {data : Val} {kind : String}
    (hkind : kind = "diff" ∨ kind = "checkpoint" ∨ kind = "diff_staged")
    (hempty : getIPLDBlocks s (some block.blockHash) (some c) (some kind) none = []) :
    prepareIPLDBlock s block c data kind =
      .ok { blockHash := block.blockHash, blockNumber := block.blockNumber,
            blockCid := block.cid, contractAddress := c,
            cid := cidStringOf (mapSet data "meta"
              (metaVal c kind (getLatestIPLDBlock s c none (some block.blockNumber)) block)),
            kind := kindOfData (mapSet data "meta"
              (metaVal c kind (getLatestIPLDBlock s c none (some block.blockNumber)) block)),
            data := mapSet data "meta"
              (metaVal c kind (getLatestIPLDBlock s c none (some block.blockNumber)) block) } := by
  have hc : (["diff", "checkpoint", "diff_staged"].contains kind) = true := by
    rcases hkind with h | h | h <;> simp [h]
  simp only [prepareIPLDBlock, hc, if_true]
  rw [hempty]
  simp

theorem prepareIPLDBlock_update {s : Store} {block : BlockProgress} {c : String}
    {data : Val} {kind : String} {old : IPLDBlock}
    (hkind : kind = "diff" ∨ kind = "checkpoint" ∨ kind = "diff_staged")
    (hone : getIPLDBlocks s (some block.blockHash) (some c) (some kind) none = [old]) :
    prepareIPLDBlock s block c data kind =
      .ok { blockHash := block.blockHash, blockNumber := block.blockNumber,
            blockCid := block.cid, contractAddress := c,
            cid := cidStringOf (lodashMerge old.data data),
            kind := kindOfData (lodashMerge old.data data),
            data := lodashMerge old.data data } := by
  have hc : (["diff", "checkpoint", "diff_staged"].contains kind) = true := by
    rcases hkind with h | h | h <;> simp [h]
  simp only [prepareIPLDBlock, hc, if_true]
  rw [hone]
  simp

theorem kindOfData_mapSet_meta {data : Val} {kvs : List (String × Val)}
    (hdata : data = Val.vmap kvs) (c kind : String) (p : Option IPLDBlock)
    (block : BlockProgress) :
    kindOfData (mapSet data "meta" (metaVal c kind p block)) = kind := by
  subst hdata
  obtain ⟨kvs2, he, hl, _⟩ := mapSet_map_exists kvs "meta" (metaVal c kind p block)
  rw [he]
  simp [kindOfData, metaOf, hl, metaVal, lookupVal]

theorem stateOf_mapSet_meta {data : Val} {kvs : List (String × Val)}
    (hdata : data = Val.vmap kvs) (M : Val) :
    stateOf (mapSet data "meta" M) = stateOf data := by
  subst hdata
  obtain ⟨kvs2, he, _, ho⟩ := mapSet_map_exists kvs "meta" M
  rw [he]
  simp [stateOf, ho "state" (by decide)]

theorem parentOf_mapSet_meta {data : Val} {kvs : List (String × Val)}
    (hdata : data = Val.vmap kvs) (c kind : String) (p : Option IPLDBlock)
    (block : BlockProgress) :
    parentOf (mapSet data "meta" (metaVal c kind p block)) =
      (match p with | some q => Val.vstr q.cid | none => Val.vnull) := by
  subst hdata
  obtain ⟨kvs2, he, hl, _⟩ := mapSet_map_exists kvs "meta" (metaVal c kind p block)
  rw [he]
  cases p <;> simp [parentOf, metaOf, hl, metaVal, lookupVal]

/-- C6: createCheckpoint without explicit data fails with a thrown error,
before any write, when the resolved target block is not marked complete or
lies above the latest canonical block number; the error does not depend on
the checkpoint hook, which is never invoked. -/
theorem c6_pruning_gate (env : Env) (s : Store) (c bh : String) (iv : Option Nat)
    (B : BlockProgress) (hB : getBlockProgress env bh = some B)
    (hfail : env.syncStatus.latestCanonicalBlockNumber < B.blockNumber ∨
      B.isComplete = false) :
    ∃ msg, ∀ hook : String → String → Bool,
      createCheckpoint env hook s c (some bh) none iv = .error msg := by
  cases hcompl : B.isComplete with
  | false =>
      refine ⟨"Block for a checkpoint should be marked as complete", fun hook => ?_⟩
      simp only [createCheckpoint, Option.getD_some]
      rw [hB]
      simp [hcompl]
  | true =>
      have hlt : env.syncStatus.latestCanonicalBlockNumber < B.blockNumber := by
        rcases hfail with h | h
        · exact h
        · rw [hcompl] at h; exact absurd h (by simp)
      refine ⟨"Block for a checkpoint should be in the pruned region", fun hook => ?_⟩
      simp only [createCheckpoint, Option.getD_some]
      rw [hB]
      simp [hcompl, hlt]

/-- Witness for C6: a complete block at height 8 with canonical height 5. -/
theorem c6_pruning_gate_witness :
    getBlockProgress ⟨[⟨"h8", 8, "bc8", true⟩], ⟨5, 5, "h5", 9⟩⟩ "h8" =
        some ⟨"h8", 8, "bc8", true⟩ ∧
    (5 < 8 ∨ (true = false)) ∧
    ∃ msg, ∀ hook : String → String → Bool,
      createCheckpoint ⟨[⟨"h8", 8, "bc8", true⟩], ⟨5, 5, "h5", 9⟩⟩ hook []
        "c" (some "h8") none none = .error msg :=
  ⟨rfl, Or.inl (by decide),
   c6_pruning_gate ⟨[⟨"h8", 8, "bc8", true⟩], ⟨5, 5, "h5", 9⟩⟩ [] "c" "h8" none
     ⟨"h8", 8, "bc8", true⟩ rfl (Or.inl (by decide))⟩

/-- C7: with a supplied checkpointInterval, when the target lies within the
interval of the prior checkpoint, createCheckpoint returns none and leaves
the store unchanged, whatever the checkpoint hook does (it is not invoked). -/
theorem c7_interval_gate (env : Env) (s : Store) (c bh : String) (i : Nat)
    (B : BlockProgress) (cp : IPLDBlock)
    (hB : getBlockProgress env bh = some B)
    (hcompl : B.isComplete = true)
    (hcan : B.blockNumber ≤ env.syncStatus.latestCanonicalBlockNumber)
    (hcp : getLatestIPLDBlock s c (some "checkpoint") (some B.blockNumber) = some cp)
    (hint : (B.blockNumber : Int) - (cp.blockNumber : Int) < (i : Int)) :
    ∀ hook : String → String → Bool,
      createCheckpoint env hook s c (some bh) none (some i) = .ok (s, none) := by
  intro hook
  have hle : cp.blockNumber ≤ B.blockNumber := getLatest_le_bound hcp
  have hi : i ≠ 0 := by omega
  have hgate : intervalGate (some i) cp.blockNumber B.blockNumber = true := by
    simp [intervalGate, hi]
    omega
  have hc2 : ¬(env.syncStatus.latestCanonicalBlockNumber < B.blockNumber) := by omega
  simp only [createCheckpoint, Option.getD_some]
  rw [hB]
  simp [hcompl, hc2, hcp, hgate]

/-- Witness for C7: checkpoint at 108, target 110, interval 5. -/
theorem c7_interval_gate_witness :
    getBlockProgress ⟨[⟨"h110", 110, "bc", true⟩], ⟨110, 110, "h110", 110⟩⟩ "h110" =
        some ⟨"h110", 110, "bc", true⟩ ∧
    getLatestIPLDBlock
        [⟨"h108", 108, "bc2", "c", "cidX", "checkpoint", Val.vmap [("state", Val.vint 1)]⟩]
        "c" (some "checkpoint") (some 110) =
      some ⟨"h108", 108, "bc2", "c", "cidX", "checkpoint", Val.vmap [("state", Val.vint 1)]⟩ ∧
    ((110 : Int) - (108 : Int) < (5 : Int)) ∧
    ∀ hook : String → String → Bool,
      createCheckpoint ⟨[⟨"h110", 110, "bc", true⟩], ⟨110, 110, "h110", 110⟩⟩ hook
        [⟨"h108", 108, "bc2", "c", "cidX", "checkpoint", Val.vmap [("state", Val.vint 1)]⟩]
        "c" (some "h110") none (some 5) =
      .ok ([⟨"h108", 108, "bc2", "c", "cidX", "checkpoint", Val.vmap [("state", Val.vint 1)]⟩],
        none) :=
  ⟨rfl, rfl, by decide,
   c7_interval_gate ⟨[⟨"h110", 110, "bc", true⟩], ⟨110, 110, "h110", 110⟩⟩
     [⟨"h108", 108, "bc2", "c", "cidX", "checkpoint", Val.vmap [("state", Val.vint 1)]⟩]
     "c" "h110" 5 ⟨"h110", 110, "bc", true⟩
     ⟨"h108", 108, "bc2", "c", "cidX", "checkpoint", Val.vmap [("state", Val.vint 1)]⟩
     rfl rfl (by decide) rfl (by decide)⟩

/-- C9: the identifier computation is a pure deterministic function of the
data payload: structurally equal payloads give byte-identical encodings and
identical identifiers, whose version is 1, codec tag the dag-cbor code 113,
and digest 256 bits. -/
theorem c9_identifier_deterministic (d1 d2 : Val) (h : d1 = d2) :
    encodeDagCbor d1 = encodeDagCbor d2 ∧
    cidOf d1 = cidOf d2 ∧
    cidStringOf d1 = cidStringOf d2 ∧
    (cidOf d1).version = 1 ∧ (cidOf d1).codec = 113 ∧
    (cidOf d1).digest.length = 32 := by
  subst h
  refine ⟨rfl, rfl, rfl, rfl, rfl, ?_⟩
  simp [cidOf, sha256Bytes, bytesOfWord]

/-- Witness for C9 at a concrete payload. -/
theorem c9_identifier_deterministic_witness :
    (Val.vmap [("state", Val.vint 7)] = Val.vmap [("state", Val.vint 7)]) ∧
    (encodeDagCbor (Val.vmap [("state", Val.vint 7)]) =
      encodeDagCbor (Val.vmap [("state", Val.vint 7)]) ∧
    cidOf (Val.vmap [("state", Val.vint 7)]) = cidOf (Val.vmap [("state", Val.vint 7)]) ∧
    cidStringOf (Val.vmap [("state", Val.vint 7)]) =
      cidStringOf (Val.vmap [("state", Val.vint 7)]) ∧
    (cidOf (Val.vmap [("state", Val.vint 7)])).version = 1 ∧
    (cidOf (Val.vmap [("state", Val.vint 7)])).codec = 113 ∧
    (cidOf (Val.vmap [("state", Val.vint 7)])).digest.length = 32) :=
  ⟨rfl, c9_identifier_deterministic _ _ rfl⟩

/-- C4 amended: a StateBlock created fresh by a staging or checkpoint
operation gets meta.parent pointing at the identifier of the most recent
StateBlock of any kind for the contract with block number at or below the
new block's number (block number descending, ties to the later created), or
null if none exists; the bound is inclusive, so the parent can sit at the
same block number. -/
theorem c4_parent_link (s : Store) (block : BlockProgress) (c kind : String)
    (data : Val) (kvs : List (String × Val)) (hdata : data = Val.vmap kvs)
    (hkind : kind = "diff" ∨ kind = "checkpoint" ∨ kind = "diff_staged")
    (hempty : getIPLDBlocks s (some block.blockHash) (some c) (some kind) none = []) :
    ∃ ib, prepareIPLDBlock s block c data kind = .ok ib ∧
      parentOf ib.data =
        (match getLatestIPLDBlock s c none (some block.blockNumber) with
         | some p => Val.vstr p.cid
         | none => Val.vnull) :=
  ⟨_, prepareIPLDBlock_create hkind hempty, parentOf_mapSet_meta hdata c kind _ block⟩

/-- Witness for the amended C4 at the empty store: the parent is null. -/
theorem c4_parent_link_witness :
    ((Val.vmap [("state", Val.vint 1)] : Val) = Val.vmap [("state", Val.vint 1)]) ∧
    ("diff_staged" = "diff" ∨ "diff_staged" = "checkpoint" ∨
      ("diff_staged" : String) = "diff_staged") ∧
    getIPLDBlocks [] (some "h1") (some "c") (some "diff_staged") none = [] ∧
    ∃ ib, prepareIPLDBlock [] ⟨"h1", 5, "bc", true⟩ "c"
        (Val.vmap [("state", Val.vint 1)]) "diff_staged" = .ok ib ∧
      parentOf ib.data =
        (match getLatestIPLDBlock [] "c" none (some 5) with
         | some p => Val.vstr p.cid
         | none => Val.vnull) :=
  ⟨rfl, Or.inr (Or.inr rfl), rfl,
   c4_parent_link [] ⟨"h1", 5, "bc", true⟩ "c" "diff_staged"
     (Val.vmap [("state", Val.vint 1)]) [("state", Val.vint 1)] rfl
     (Or.inr (Or.inr rfl)) rfl⟩

/-- Counterexample to C4 as stated: a staged row sits at block 5 and a
checkpoint is then created at the same block for the same contract; nothing
exists strictly before block 5, so the claim demands a null parent, yet the
new checkpoint's meta.parent points at the staged row at the same height. -/
theorem c4_strictly_before_counterexample :
    ∃ s2 r,
      createCheckpoint
          ⟨[⟨"h1", 5, "bc1", true⟩], ⟨5, 5, "h1", 5⟩⟩ (fun _ _ => false)
          [⟨"h1", 5, "bc1", "c", "cidStaged", "diff_staged", Val.vmap [("state", Val.vint 1)]⟩]
          "c" (some "h1") (some (Val.vmap [("state", Val.vint 2)])) none =
        .ok (s2, none) ∧
      getIPLDBlocks s2 (some "h1") (some "c") (some "checkpoint") none = [r] ∧
      parentOf r.data = Val.vstr "cidStaged" ∧
      parentOf r.data ≠ Val.vnull ∧
      (∀ q ∈ ([⟨"h1", 5, "bc1", "c", "cidStaged", "diff_staged",
          Val.vmap [("state", Val.vint 1)]⟩] : Store), ¬ q.blockNumber < 5) := by
  refine ⟨_, _, rfl, rfl, rfl, ?_, ?_⟩
  · intro hcon
    exact Val.noConfusion hcon
  · intro q hq
    simp at hq
    subst hq
    decide

theorem prepareIPLDBlock_create_spec {s : Store} {block : BlockProgress} {c : String}
    {data : Val} {kind : String} {kvs : List (String × Val)}
    (hdata : data = Val.vmap kvs)
    (hkind : kind = "diff" ∨ kind = "checkpoint" ∨ kind = "diff_staged")
    (hempty : getIPLDBlocks s (some block.blockHash) (some c) (some kind) none = []) :
    ∃ ib, prepareIPLDBlock s block c data kind = .ok ib ∧
      ib.blockHash = block.blockHash ∧ ib.blockNumber = block.blockNumber ∧
      ib.contractAddress = c ∧ ib.kind = kind ∧
      stateOf ib.data = stateOf data ∧
      parentOf ib.data =
        (match getLatestIPLDBlock s c none (some block.blockNumber) with
         | some p => Val.vstr p.cid
         | none => Val.vnull) ∧
      ib.data = mapSet data "meta"
        (metaVal c kind (getLatestIPLDBlock s c none (some block.blockNumber)) block) ∧
      ib.cid = cidStringOf ib.data :=
  ⟨_, prepareIPLDBlock_create hkind hempty, rfl, rfl, rfl,
   kindOfData_mapSet_meta hdata c kind _ block,
   stateOf_mapSet_meta hdata _,
   parentOf_mapSet_meta hdata c kind _ block, rfl, rfl⟩

/-- C1: with a checkpoint at N0 the latest at or below the complete,
canonical target block, the permanent diffs after N0 being ds in ascending
block order all at or below the target, no checkpoint row yet at the target
and the hook declining, createCheckpoint without explicit data creates a
checkpoint row at the target whose state is the left fold of the lodash
merge over the diff states in ascending block-number order, starting from
the checkpoint state. -/
theorem c1_checkpoint_fold (env : Env) (s : Store) (c bh : String)
    (B : BlockProgress) (cp : IPLDBlock) (ds : List IPLDBlock)
    (hB : getBlockProgress env bh = some B)
    (hcompl : B.isComplete = true)
    (hcan : B.blockNumber ≤ env.syncStatus.latestCanonicalBlockNumber)
    (hcp : getLatestIPLDBlock s c (some "checkpoint") (some B.blockNumber) = some cp)
    (hds : getDiffIPLDBlocksByCheckpoint s c cp.blockNumber = ds)
    (hasc : List.Chain' (fun a b => a.blockNumber < b.blockNumber) ds)
    (hgt : ∀ d ∈ ds, cp.blockNumber < d.blockNumber ∧ d.blockNumber ≤ B.blockNumber)
    (hnock : getIPLDBlocks s (some B.blockHash) (some c) (some "checkpoint") none = [])
    (hook : String → String → Bool) (hhook : hook c B.blockHash = false) :
    ∃ s2 ib,
      createCheckpoint env hook s c (some bh) none none = .ok (s2, some B.blockHash) ∧
      s2 = s ++ [ib] ∧
      ib.blockHash = B.blockHash ∧ ib.blockNumber = B.blockNumber ∧
      ib.contractAddress = c ∧ ib.kind = "checkpoint" ∧
      stateOf ib.data =
        ds.foldl (fun acc d => lodashMerge acc (stateOf d.data)) (stateOf cp.data) := by
  have hc2 : ¬(env.syncStatus.latestCanonicalBlockNumber < B.blockNumber) := by omega
  have e1 : createCheckpoint env hook s c (some bh) none none =
      (match prepareIPLDBlock s B c (Val.vmap [("state",
          (getDiffIPLDBlocksByCheckpoint s c cp.blockNumber).foldl
            (fun acc db => lodashMerge acc (stateOf db.data)) (stateOf cp.data))])
          "checkpoint" with
       | .error e => .error e
       | .ok ib => .ok (saveOrUpdateIPLDBlock s ib, some B.blockHash)) := by
    simp only [createCheckpoint, Option.getD_some]
    rw [hB]
    simp [hcompl, hc2, hcp, intervalGate, hhook]
  rw [hds] at e1
  obtain ⟨ib0, hprep, hbh, hbn, hca, hk, hst, hpar, hdt, hcid⟩ :=
    @prepareIPLDBlock_create_spec s B c
      (Val.vmap [("state",
        ds.foldl (fun acc db => lodashMerge acc (stateOf db.data)) (stateOf cp.data))])
      "checkpoint"
      [("state", ds.foldl (fun acc db => lodashMerge acc (stateOf db.data)) (stateOf cp.data))]
      rfl (Or.inr (Or.inl rfl)) hnock
  rw [hprep] at e1
  rw [show (match Except.ok ib0 with
      | Except.error e => (Except.error e : Except String (Store × Option String))
      | Except.ok ib => Except.ok (saveOrUpdateIPLDBlock s ib, some B.blockHash)) =
      Except.ok (saveOrUpdateIPLDBlock s ib0, some B.blockHash) from rfl] at e1
  rw [saveOrUpdate_of_no_match s ib0 (no_match_of_filter_empty hnock hbh hca hk)] at e1
  refine ⟨_, _, e1, rfl, hbh, hbn, hca, hk, ?_⟩
  rw [hst]
  simp [stateOf, lookupVal]

/-- Witness for C1: checkpoint at 100 with balance 0, one diff at 105 with
balance 50, target the canonical complete block 110. -/
theorem c1_checkpoint_fold_witness :
    getBlockProgress ⟨[⟨"hB", 110, "c110", true⟩], ⟨110, 110, "hB", 110⟩⟩ "hB" =
        some ⟨"hB", 110, "c110", true⟩ ∧
    getLatestIPLDBlock
        [⟨"hA", 100, "cA", "c", "cidcp", "checkpoint",
            Val.vmap [("state", Val.vmap [("balance", Val.vint 0)])]⟩,
         ⟨"hC", 105, "cC", "c", "ciddiff", "diff",
            Val.vmap [("state", Val.vmap [("balance", Val.vint 50)])]⟩]
        "c" (some "checkpoint") (some 110) =
      some ⟨"hA", 100, "cA", "c", "cidcp", "checkpoint",
        Val.vmap [("state", Val.vmap [("balance", Val.vint 0)])]⟩ ∧
    getDiffIPLDBlocksByCheckpoint
        [⟨"hA", 100, "cA", "c", "cidcp", "checkpoint",
            Val.vmap [("state", Val.vmap [("balance", Val.vint 0)])]⟩,
         ⟨"hC", 105, "cC", "c", "ciddiff", "diff",
            Val.vmap [("state", Val.vmap [("balance", Val.vint 50)])]⟩]
        "c" 100 =
      [⟨"hC", 105, "cC", "c", "ciddiff", "diff",
        Val.vmap [("state", Val.vmap [("balance", Val.vint 50)])]⟩] ∧
    getIPLDBlocks
        [⟨"hA", 100, "cA", "c", "cidcp", "checkpoint",
            Val.vmap [("state", Val.vmap [("balance", Val.vint 0)])]⟩,
         ⟨"hC", 105, "cC", "c", "ciddiff", "diff",
            Val.vmap [("state", Val.vmap [("balance", Val.vint 50)])]⟩]
        (some "hB") (some "c") (some "checkpoint") none = [] ∧
    ∃ s2 ib,
      createCheckpoint ⟨[⟨"hB", 110, "c110", true⟩], ⟨110, 110, "hB", 110⟩⟩
          (fun _ _ => false)
          [⟨"hA", 100, "cA", "c", "cidcp", "checkpoint",
              Val.vmap [("state", Val.vmap [("balance", Val.vint 0)])]⟩,
           ⟨"hC", 105, "cC", "c", "ciddiff", "diff",
              Val.vmap [("state", Val.vmap [("balance", Val.vint 50)])]⟩]
          "c" (some "hB") none none = .ok (s2, some "hB") ∧
      s2 = [⟨"hA", 100, "cA", "c", "cidcp", "checkpoint",
              Val.vmap [("state", Val.vmap [("balance", Val.vint 0)])]⟩,
            ⟨"hC", 105, "cC", "c", "ciddiff", "diff",
              Val.vmap [("state", Val.vmap [("balance", Val.vint 50)])]⟩] ++ [ib] ∧
      ib.blockHash = "hB" ∧ ib.blockNumber = 110 ∧
      ib.contractAddress = "c" ∧ ib.kind = "checkpoint" ∧
      stateOf ib.data =
        ([⟨"hC", 105, "cC", "c", "ciddiff", "diff",
          Val.vmap [("state", Val.vmap [("balance", Val.vint 50)])]⟩] : Store).foldl
          (fun acc d => lodashMerge acc (stateOf d.data))
          (stateOf (Val.vmap [("state", Val.vmap [("balance", Val.vint 0)])])) :=
  ⟨rfl, rfl, rfl, rfl,
   c1_checkpoint_fold ⟨[⟨"hB", 110, "c110", true⟩], ⟨110, 110, "hB", 110⟩⟩
     [⟨"hA", 100, "cA", "c", "cidcp", "checkpoint",
         Val.vmap [("state", Val.vmap [("balance", Val.vint 0)])]⟩,
      ⟨"hC", 105, "cC", "c", "ciddiff", "diff",
         Val.vmap [("state", Val.vmap [("balance", Val.vint 50)])]⟩]
     "c" "hB" ⟨"hB", 110, "c110", true⟩
     ⟨"hA", 100, "cA", "c", "cidcp", "checkpoint",
       Val.vmap [("state", Val.vmap [("balance", Val.vint 0)])]⟩
     [⟨"hC", 105, "cC", "c", "ciddiff", "diff",
       Val.vmap [("state", Val.vmap [("balance", Val.vint 50)])]⟩]
     rfl rfl (by decide) rfl rfl (by simp) (by decide) rfl
     (fun _ _ => false) rfl⟩

/-- C10: when no checkpoint exists for the contract, or its latest
checkpoint sits at the very block hash being written, createDiff throws and
writes nothing; a finalization whose staged row belongs to such a contract
therefore fails as a whole, as does processCanonicalBlock. -/
theorem c10_diff_requires_checkpoint (env : Env) (s : Store) (c bh : String)
    (B : BlockProgress) (sb : IPLDBlock)
    (hB : getBlockProgress env bh = some B)
    (hck : getLatestIPLDBlock s c (some "checkpoint") none = none ∨
      ∃ ck, getLatestIPLDBlock s c (some "checkpoint") none = some ck ∧
        ck.blockHash = B.blockHash)
    (hstaged : getIPLDBlocks s (some B.blockHash) none (some "diff_staged") none = [sb])
    (hsbc : sb.contractAddress = c) (hsbh : sb.blockHash = B.blockHash) :
    (∀ d : Val, ∃ msg, createDiff env s c bh d = .error msg) ∧
    (∃ msg2, finalizeDiffStaged env s bh = .error msg2) ∧
    (∃ msg3, ∀ hk : Store → Except String Store,
      processCanonicalBlock env hk s bh = .error msg3) := by
  have hBh : B.blockHash = bh := by
    have h2 := List.find?_some hB
    simpa using h2
  have hcd : ∀ d : Val, ∃ msg, createDiff env s c bh d = .error msg := by
    intro d
    rcases hck with hnone | ⟨ck, hsome, heq⟩
    · refine ⟨"Initial checkpoint does not exist", ?_⟩
      simp only [createDiff]
      rw [hB, hnone]
    · refine ⟨"Checkpoint already created for the block hash", ?_⟩
      simp only [createDiff]
      rw [hB, hsome]
      simp [heq]
  have hfd : ∃ msg2, finalizeDiffStaged env s bh = .error msg2 := by
    obtain ⟨msg, hmsg⟩ := hcd sb.data
    refine ⟨msg, ?_⟩
    have e2 : finalizeDiffStaged env s bh =
        (match finalizeLoop env s
            (getIPLDBlocks s (some B.blockHash) none (some "diff_staged") none) with
         | .error e => .error e
         | .ok s2 => .ok (removeStagedIPLDBlocks s2 B.blockNumber)) := by
      simp only [finalizeDiffStaged]
      rw [hB]
    rw [hstaged] at e2
    have e3 : finalizeLoop env s [sb] = .error msg := by
      simp only [finalizeLoop]
      rw [hsbc, show sb.blockHash = bh from hsbh.trans hBh, hmsg]
    rw [e3] at e2
    exact e2.trans rfl
  refine ⟨hcd, hfd, ?_⟩
  obtain ⟨msg2, hmsg2⟩ := hfd
  refine ⟨msg2, fun hk => ?_⟩
  simp only [processCanonicalBlock]
  rw [hmsg2]

/-- Witness for C10: a checkpoint created at the block hash at which a
staged row for the same contract awaits finalization. -/
theorem c10_diff_requires_checkpoint_witness :
    getBlockProgress ⟨[⟨"h9", 9, "bc9", true⟩], ⟨9, 9, "h9", 9⟩⟩ "h9" =
        some ⟨"h9", 9, "bc9", true⟩ ∧
    (∃ ck, getLatestIPLDBlock
        [⟨"h9", 9, "bc9", "c", "cidck", "checkpoint", Val.vmap [("state", Val.vint 0)]⟩,
         ⟨"h9", 9, "bc9", "c", "cidst", "diff_staged", Val.vmap [("state", Val.vint 1)]⟩]
        "c" (some "checkpoint") none = some ck ∧ ck.blockHash = "h9") ∧
    getIPLDBlocks
        [⟨"h9", 9, "bc9", "c", "cidck", "checkpoint", Val.vmap [("state", Val.vint 0)]⟩,
         ⟨"h9", 9, "bc9", "c", "cidst", "diff_staged", Val.vmap [("state", Val.vint 1)]⟩]
        (some "h9") none (some "diff_staged") none =
      [⟨"h9", 9, "bc9", "c", "cidst", "diff_staged", Val.vmap [("state", Val.vint 1)]⟩] ∧
    ((∀ d : Val, ∃ msg, createDiff ⟨[⟨"h9", 9, "bc9", true⟩], ⟨9, 9, "h9", 9⟩⟩
        [⟨"h9", 9, "bc9", "c", "cidck", "checkpoint", Val.vmap [("state", Val.vint 0)]⟩,
         ⟨"h9", 9, "bc9", "c", "cidst", "diff_staged", Val.vmap [("state", Val.vint 1)]⟩]
        "c" "h9" d = .error msg) ∧
     (∃ msg2, finalizeDiffStaged ⟨[⟨"h9", 9, "bc9", true⟩], ⟨9, 9, "h9", 9⟩⟩
        [⟨"h9", 9, "bc9", "c", "cidck", "checkpoint", Val.vmap [("state", Val.vint 0)]⟩,
         ⟨"h9", 9, "bc9", "c", "cidst", "diff_staged", Val.vmap [("state", Val.vint 1)]⟩]
        "h9" = .error msg2) ∧
     (∃ msg3, ∀ hk : Store → Except String Store,
        processCanonicalBlock ⟨[⟨"h9", 9, "bc9", true⟩], ⟨9, 9, "h9", 9⟩⟩ hk
          [⟨"h9", 9, "bc9", "c", "cidck", "checkpoint", Val.vmap [("state", Val.vint 0)]⟩,
           ⟨"h9", 9, "bc9", "c", "cidst", "diff_staged", Val.vmap [("state", Val.vint 1)]⟩]
          "h9" = .error msg3)) :=
  ⟨rfl,
   ⟨⟨"h9", 9, "bc9", "c", "cidck", "checkpoint", Val.vmap [("state", Val.vint 0)]⟩, rfl, rfl⟩,
   rfl,
   c10_diff_requires_checkpoint ⟨[⟨"h9", 9, "bc9", true⟩], ⟨9, 9, "h9", 9⟩⟩
     [⟨"h9", 9, "bc9", "c", "cidck", "checkpoint", Val.vmap [("state", Val.vint 0)]⟩,
      ⟨"h9", 9, "bc9", "c", "cidst", "diff_staged", Val.vmap [("state", Val.vint 1)]⟩]
     "c" "h9" ⟨"h9", 9, "bc9", true⟩
     ⟨"h9", 9, "bc9", "c", "cidst", "diff_staged", Val.vmap [("state", Val.vint 1)]⟩
     rfl
     (Or.inr ⟨⟨"h9", 9, "bc9", "c", "cidck", "checkpoint", Val.vmap [("state", Val.vint 0)]⟩,
       rfl, rfl⟩)
     rfl rfl rfl⟩

/-- Counterexample to C5 as stated: merging a one-element array value over a
two-element array value at the same key keeps the destination's surplus
element; the array is not replaced wholesale. -/
theorem c5_array_overwrite_counterexample :
    lodashMerge (Val.vmap [("x", Val.varr [Val.vint 1, Val.vint 2])])
        (Val.vmap [("x", Val.varr [Val.vint 3])]) =
      Val.vmap [("x", Val.varr [Val.vint 3, Val.vint 2])] ∧
    lodashMerge (Val.vmap [("x", Val.varr [Val.vint 1, Val.vint 2])])
        (Val.vmap [("x", Val.varr [Val.vint 3])]) ≠
      Val.vmap [("x", Val.varr [Val.vint 3])] := by
  have h1 : lodashMerge (Val.vmap [("x", Val.varr [Val.vint 1, Val.vint 2])])
      (Val.vmap [("x", Val.varr [Val.vint 3])]) =
      Val.vmap [("x", Val.varr [Val.vint 3, Val.vint 2])] := by
    simp [lodashMerge, mergeMaps, mergeArrs, lookupVal, containsKey]
  refine ⟨h1, ?_⟩
  rw [h1]
  intro hcon
  simp at hcon

/-- The index-by-index behaviour of the array merge: the source element
merges over the destination element at each shared index, and either side's
surplus elements survive. -/
theorem mergeArrs_get (xs : List Val) : ∀ (ys : List Val) (i : Nat),
    (mergeArrs xs ys)[i]? =
      (match xs[i]?, ys[i]? with
       | some x, some y => some (lodashMerge x y)
       | some x, none => some x
       | none, some y => some y
       | none, none => none) := by
  induction xs with
  | nil =>
      intro ys i
      have h0 : ([] : List Val)[i]? = none := by simp
      rw [h0]
      cases ys with
      | nil => simp [mergeArrs]
      | cons y rest2 =>
          cases hy : (y :: rest2)[i]? with
          | none => simp [mergeArrs, hy]
          | some v => simp [mergeArrs, hy]
  | cons x rest ih =>
      intro ys i
      cases ys with
      | nil =>
          cases hx : (x :: rest)[i]? with
          | none => simp [mergeArrs, hx]
          | some v => simp [mergeArrs, hx]
      | cons y rest2 =>
          cases i with
          | zero => simp [mergeArrs]
          | succ n => simp [mergeArrs, ih rest2 n]

/-- The merged array is as long as the longer side. -/
theorem mergeArrs_length (xs : List Val) : ∀ ys : List Val,
    (mergeArrs xs ys).length = max xs.length ys.length := by
  induction xs with
  | nil => intro ys; cases ys <;> simp [mergeArrs]
  | cons x rest ih =>
      intro ys
      cases ys with
      | nil => simp [mergeArrs]
      | cons y rest2 =>
          simp [mergeArrs, ih rest2]
          omega

/-- C5 amended: the deep merge combines nested maps key by key recursively
and overwrites scalars, but combines array values element by element by
index: the source's element lands at each index it defines (merging over
the destination's element there), and the destination's elements beyond the
source's length are preserved rather than discarded. -/
theorem c5_merge_arrays_elementwise (a b : List (String × Val)) (k : String)
    (xs ys : List Val)
    (ha : lookupVal k a = some (Val.varr xs)) (hb : lookupVal k b = some (Val.varr ys)) :
    lookupVal k (mergedKvs a b) = some (Val.varr (mergeArrs xs ys)) ∧
    (∀ i : Nat, (mergeArrs xs ys)[i]? =
      (match xs[i]?, ys[i]? with
       | some x, some y => some (lodashMerge x y)
       | some x, none => some x
       | none, some y => some y
       | none, none => none)) ∧
    (mergeArrs xs ys).length = max xs.length ys.length := by
  refine ⟨?_, fun i => mergeArrs_get xs ys i, mergeArrs_length xs ys⟩
  rw [lookupVal_mergedKvs, ha, hb]
  simp [lodashMerge]

/-- Witness for the amended C5 at concrete arrays. -/
theorem c5_merge_arrays_elementwise_witness :
    lookupVal "x" [("x", Val.varr [Val.vint 1, Val.vint 2])] =
        some (Val.varr [Val.vint 1, Val.vint 2]) ∧
    lookupVal "x" [("x", Val.varr [Val.vint 3])] = some (Val.varr [Val.vint 3]) ∧
    (lookupVal "x" (mergedKvs [("x", Val.varr [Val.vint 1, Val.vint 2])]
        [("x", Val.varr [Val.vint 3])]) =
      some (Val.varr (mergeArrs [Val.vint 1, Val.vint 2] [Val.vint 3])) ∧
    (∀ i : Nat, (mergeArrs [Val.vint 1, Val.vint 2] [Val.vint 3])[i]? =
      (match [Val.vint 1, Val.vint 2][i]?, [Val.vint 3][i]? with
       | some x, some y => some (lodashMerge x y)
       | some x, none => some x
       | none, some y => some y
       | none, none => none)) ∧
    (mergeArrs [Val.vint 1, Val.vint 2] [Val.vint 3]).length =
      max [Val.vint 1, Val.vint 2].length [Val.vint 3].length) :=
  ⟨rfl, rfl,
   c5_merge_arrays_elementwise [("x", Val.varr [Val.vint 1, Val.vint 2])]
     [("x", Val.varr [Val.vint 3])] "x" [Val.vint 1, Val.vint 2] [Val.vint 3] rfl rfl⟩

/-! Lemmas for staging idempotence: a repeated identical staging merges the
stored payload with the same payload again, leaving the state unchanged. -/

theorem lookupVal_append_single_ne (kvs : List (String × Val)) (M : Val)
    (k : String) (hk : k ≠ "meta") :
    lookupVal k (kvs ++ [("meta", M)]) = lookupVal k kvs := by
  rw [lookupVal_append]
  have hb : (("meta" : String) == k) = false :=
    beq_false_of_ne (fun he => hk he.symm)
  cases h : lookupVal k kvs with
  | some v => simp
  | none => simp [lookupVal, hb]

theorem lookupVal_meta_append (kvs : List (String × Val)) (M : Val)
    (hnometa : containsKey "meta" kvs = false) :
    lookupVal "meta" (kvs ++ [("meta", M)]) = some M := by
  rw [lookupVal_append]
  have h : lookupVal "meta" kvs = none := (lookupVal_eq_none_iff _ _).mpr hnometa
  simp [h, lookupVal]

theorem metaOf_merge_again (kvs : List (String × Val)) (M : Val)
    (hnometa : containsKey "meta" kvs = false) :
    metaOf (lodashMerge (Val.vmap (kvs ++ [("meta", M)])) (Val.vmap kvs)) = some M := by
  rw [lodashMerge_map_map]
  show lookupVal "meta" (mergedKvs (kvs ++ [("meta", M)]) kvs) = some M
  rw [lookupVal_mergedKvs, lookupVal_meta_append kvs M hnometa,
    (lookupVal_eq_none_iff _ _).mpr hnometa]

theorem stateOf_merge_again (kvs : List (String × Val)) (M : Val)
    (hnometa : containsKey "meta" kvs = false) (hw : wfKvs kvs = true) :
    stateOf (lodashMerge (Val.vmap (kvs ++ [("meta", M)])) (Val.vmap kvs)) =
      stateOf (Val.vmap (kvs ++ [("meta", M)])) := by
  rw [lodashMerge_map_map]
  show (lookupVal "state" (mergedKvs (kvs ++ [("meta", M)]) kvs)).getD .vnull =
    (lookupVal "state" (kvs ++ [("meta", M)])).getD .vnull
  rw [lookupVal_mergedKvs, lookupVal_append_single_ne kvs M "state" (by decide)]
  cases hsv : lookupVal "state" kvs with
  | none => simp
  | some sv =>
      have hwsv : wfVal sv = true := wfKvs_mem hw (mem_of_lookupVal hsv)
      simp [lodashMerge_self sv hwsv]

theorem kindOfData_of_metaOf {v : Val} {c kind : String} {p : Option IPLDBlock}
    {block : BlockProgress} (h : metaOf v = some (metaVal c kind p block)) :
    kindOfData v = kind := by
  simp [kindOfData, h, metaVal, lookupVal]

theorem prepareIPLDBlock_update_spec {s : Store} {block : BlockProgress} {c : String}
    {data : Val} {kind : String} {old : IPLDBlock}
    (hkind : kind = "diff" ∨ kind = "checkpoint" ∨ kind = "diff_staged")
    (hone : getIPLDBlocks s (some block.blockHash) (some c) (some kind) none = [old]) :
    ∃ ib, prepareIPLDBlock s block c data kind = .ok ib ∧
      ib.blockHash = block.blockHash ∧ ib.blockNumber = block.blockNumber ∧
      ib.contractAddress = c ∧ ib.kind = kindOfData (lodashMerge old.data data) ∧
      ib.data = lodashMerge old.data data :=
  ⟨_, prepareIPLDBlock_update hkind hone, rfl, rfl, rfl, rfl, rfl⟩

/-- C8: staging the same well-formed update payload twice for the same
(block, contract) leaves the staged StateBlock's state exactly as after one
staging: the second call deep-merges the payload with itself, a no-op. -/
theorem c8_staging_idempotent (env : Env) (s : Store) (c bh : String)
    (B : BlockProgress) (kvs : List (String × Val))
    (hB : getBlockProgress env bh = some B)
    (hempty : getIPLDBlocks s (some B.blockHash) (some c) (some "diff_staged") none = [])
    (hwf : wfVal (Val.vmap kvs) = true)
    (hnometa : containsKey "meta" kvs = false) :
    ∃ s1 r1 s2 r2,
      createDiffStaged env s c bh (Val.vmap kvs) = .ok s1 ∧
      createDiffStaged env s1 c bh (Val.vmap kvs) = .ok s2 ∧
      getIPLDBlocks s1 (some B.blockHash) (some c) (some "diff_staged") none = [r1] ∧
      getIPLDBlocks s2 (some B.blockHash) (some c) (some "diff_staged") none = [r2] ∧
      stateOf r2.data = stateOf r1.data := by
  obtain ⟨r1, hprep1, hbh1, hbn1, hca1, hk1, hst1, hpar1, hdt1, hcid1⟩ :=
    @prepareIPLDBlock_create_spec s B c (Val.vmap kvs) "diff_staged" kvs rfl
      (Or.inr (Or.inr rfl)) hempty
  have hcall1' : createDiffStaged env s c bh (Val.vmap kvs) =
      (match prepareIPLDBlock s B c (Val.vmap kvs) "diff_staged" with
       | .error e => .error e
       | .ok ib => .ok (saveOrUpdateIPLDBlock s ib)) := by
    simp only [createDiffStaged]
    rw [hB]
  rw [hprep1] at hcall1'
  have hsave1 : saveOrUpdateIPLDBlock s r1 = s ++ [r1] :=
    saveOrUpdate_of_no_match s r1 (no_match_of_filter_empty hempty hbh1 hca1 hk1)
  have hcall1 : createDiffStaged env s c bh (Val.vmap kvs) = .ok (s ++ [r1]) := by
    rw [hcall1']
    simp [hsave1]
  have hdata1 : r1.data = Val.vmap (kvs ++ [("meta", metaVal c "diff_staged"
      (getLatestIPLDBlock s c none (some B.blockNumber)) B)]) := by
    rw [hdt1]
    simp [mapSet, hnometa]
  have hfilter1 : getIPLDBlocks (s ++ [r1]) (some B.blockHash) (some c)
      (some "diff_staged") none = [r1] := by
    rw [getIPLDBlocks_append, hempty]
    simp [getIPLDBlocks, matchesFilter, hbh1, hca1, hk1]
  obtain ⟨r2, hprep2, hbh2, hbn2, hca2, hk2eq, hdt2⟩ :=
    @prepareIPLDBlock_update_spec (s ++ [r1]) B c (Val.vmap kvs) "diff_staged" r1
      (Or.inr (Or.inr rfl)) hfilter1
  have hmeta2 : metaOf (lodashMerge r1.data (Val.vmap kvs)) =
      some (metaVal c "diff_staged"
        (getLatestIPLDBlock s c none (some B.blockNumber)) B) := by
    rw [hdata1]
    exact metaOf_merge_again kvs _ hnometa
  have hk2 : r2.kind = "diff_staged" := by
    rw [hk2eq]
    exact kindOfData_of_metaOf hmeta2
  have hw2 : wfKvs kvs = true := by
    have h2 := hwf
    simp [wfVal, Bool.and_eq_true] at h2
    exact h2.2
  have hst2 : stateOf r2.data = stateOf r1.data := by
    rw [hdt2, hdata1]
    rw [← hdata1]
    rw [hdata1]
    exact stateOf_merge_again kvs _ hnometa hw2
  have hcall2' : createDiffStaged env (s ++ [r1]) c bh (Val.vmap kvs) =
      (match prepareIPLDBlock (s ++ [r1]) B c (Val.vmap kvs) "diff_staged" with
       | .error e => .error e
       | .ok ib => .ok (saveOrUpdateIPLDBlock (s ++ [r1]) ib)) := by
    simp only [createDiffStaged]
    rw [hB]
  rw [hprep2] at hcall2'
  have hkey : sameKey r1 r2 = true := by
    simp [sameKey, hbh1, hca1, hk1, hbh2, hca2, hk2]
  have hnm2 : ∀ r ∈ s, sameKey r r2 = false :=
    no_match_of_filter_empty hempty hbh2 hca2 hk2
  have hsave2 : saveOrUpdateIPLDBlock (s ++ [r1]) r2 = s ++ [r2] :=
    saveOrUpdate_replace_last s r1 r2 hnm2 hkey
  have hcall2 : createDiffStaged env (s ++ [r1]) c bh (Val.vmap kvs) = .ok (s ++ [r2]) := by
    rw [hcall2']
    simp [hsave2]
  have hfilter2 : getIPLDBlocks (s ++ [r2]) (some B.blockHash) (some c)
      (some "diff_staged") none = [r2] := by
    rw [getIPLDBlocks_append, hempty]
    simp [getIPLDBlocks, matchesFilter, hbh2, hca2, hk2]
  exact ⟨s ++ [r1], r1, s ++ [r2], r2, hcall1, hcall2, hfilter1, hfilter2, hst2⟩

/-- Witness for C8 at a concrete staged payload. -/
theorem c8_staging_idempotent_witness :
    getBlockProgress ⟨[⟨"h5", 5, "bc5", true⟩], ⟨5, 5, "h5", 5⟩⟩ "h5" =
        some ⟨"h5", 5, "bc5", true⟩ ∧
    getIPLDBlocks [] (some "h5") (some "c") (some "diff_staged") none = [] ∧
    wfVal (Val.vmap [("state", Val.vmap [("a", Val.vint 1)])]) = true ∧
    containsKey "meta" [("state", Val.vmap [("a", Val.vint 1)])] = false ∧
    ∃ s1 r1 s2 r2,
      createDiffStaged ⟨[⟨"h5", 5, "bc5", true⟩], ⟨5, 5, "h5", 5⟩⟩ [] "c" "h5"
          (Val.vmap [("state", Val.vmap [("a", Val.vint 1)])]) = .ok s1 ∧
      createDiffStaged ⟨[⟨"h5", 5, "bc5", true⟩], ⟨5, 5, "h5", 5⟩⟩ s1 "c" "h5"
          (Val.vmap [("state", Val.vmap [("a", Val.vint 1)])]) = .ok s2 ∧
      getIPLDBlocks s1 (some "h5") (some "c") (some "diff_staged") none = [r1] ∧
      getIPLDBlocks s2 (some "h5") (some "c") (some "diff_staged") none = [r2] ∧
      stateOf r2.data = stateOf r1.data :=
  ⟨rfl, rfl, by simp [wfVal, wfKvs, wfList, keysUnique, containsKey], rfl,
   c8_staging_idempotent ⟨[⟨"h5", 5, "bc5", true⟩], ⟨5, 5, "h5", 5⟩⟩ [] "c" "h5"
     ⟨"h5", 5, "bc5", true⟩ [("state", Val.vmap [("a", Val.vint 1)])] rfl rfl
     (by simp [wfVal, wfKvs, wfList, keysUnique, containsKey]) rfl⟩

/-! The finalization loop: each staged row becomes a fresh permanent diff
row appended to the store, under the preconditions of spec 4.3. -/

theorem mem_getIPLDBlocks_block_kind {s : Store} {h k : String} {sb : IPLDBlock}
    (hm : sb ∈ getIPLDBlocks s (some h) none (some k) none) :
    sb ∈ s ∧ sb.blockHash = h ∧ sb.kind = k := by
  have h2 := List.mem_filter.mp hm
  refine ⟨h2.1, ?_⟩
  have h3 := h2.2
  simp [matchesFilter] at h3
  exact h3

theorem finalizeLoop_spec (env : Env) (s : Store) (bh : String) (B : BlockProgress)
    (hB : getBlockProgress env bh = some B) (hBh : B.blockHash = bh) :
    ∀ (pending : List IPLDBlock) (extra : Store),
      (∀ sb ∈ pending, sb.blockHash = B.blockHash) →
      (∀ sb ∈ pending, ∃ kvs, sb.data = Val.vmap kvs) →
      (∀ sb ∈ pending, ∃ ck,
        getLatestIPLDBlock s sb.contractAddress (some "checkpoint") none = some ck ∧
        ck.blockHash ≠ B.blockHash) →
      (∀ sb ∈ pending,
        getIPLDBlocks s (some B.blockHash) (some sb.contractAddress) (some "diff") none = []) →
      pending.Pairwise (fun x y => x.contractAddress ≠ y.contractAddress) →
      (∀ r ∈ extra, r.kind = "diff" ∧ r.blockHash = B.blockHash ∧
        r.blockNumber = B.blockNumber) →
      (∀ sb ∈ pending, ∀ r ∈ extra, r.contractAddress ≠ sb.contractAddress) →
      ∃ extra2,
        finalizeLoop env (s ++ extra) pending = .ok (s ++ (extra ++ extra2)) ∧
        (∀ r ∈ extra2, r.kind = "diff" ∧ r.blockHash = B.blockHash ∧
          r.blockNumber = B.blockNumber) ∧
        (∀ sb ∈ pending, ∃ r ∈ extra2, r.contractAddress = sb.contractAddress ∧
          stateOf r.data = stateOf sb.data) := by
  intro pending
  induction pending with
  | nil =>
      intro extra _ _ _ _ _ _ _
      exact ⟨[], by simp [finalizeLoop], by simp, by simp⟩
  | cons sb rest ih =>
      intro extra hbh hmap hck hnd hpw hex hdisj
      obtain ⟨ck, hcksome, hckne⟩ := hck sb (by simp)
      have hck2 : getLatestIPLDBlock (s ++ extra) sb.contractAddress
          (some "checkpoint") none = some ck := by
        rw [getLatest_append_kind_ne s extra _ _ _
          (fun r hr => by rw [(hex r hr).1]; decide)]
        exact hcksome
      have hempty2 : getIPLDBlocks (s ++ extra) (some B.blockHash)
          (some sb.contractAddress) (some "diff") none = [] := by
        rw [getIPLDBlocks_append, hnd sb (by simp)]
        rw [List.nil_append, getIPLDBlocks, List.filter_eq_nil_iff]
        intro r hr hm
        simp [matchesFilter] at hm
        obtain ⟨⟨hm1, hm2⟩, hm3⟩ := hm
        exact hdisj sb (by simp) r hr hm2
      obtain ⟨kvs, hkvs⟩ := hmap sb (by simp)
      obtain ⟨rnew, hprep, hbh3, hbn3, hca3, hk3, hst3, hpar3, hdt3, hcid3⟩ :=
        @prepareIPLDBlock_create_spec (s ++ extra) B sb.contractAddress sb.data "diff"
          kvs hkvs (Or.inl rfl) hempty2
      have hbsb : getBlockProgress env sb.blockHash = some B := by
        rw [hbh sb (by simp), hBh]
        exact hB
      have hne : (ck.blockHash == B.blockHash) = false := beq_false_of_ne hckne
      have hcd : createDiff env (s ++ extra) sb.contractAddress sb.blockHash sb.data =
          .ok ((s ++ extra) ++ [rnew]) := by
        have e1 : createDiff env (s ++ extra) sb.contractAddress sb.blockHash sb.data =
            .ok (saveOrUpdateIPLDBlock (s ++ extra) rnew) := by
          simp only [createDiff]
          rw [hbsb]
          simp [hck2, hne, hprep]
        rw [e1, saveOrUpdate_of_no_match _ _
          (no_match_of_filter_empty hempty2 hbh3 hca3 hk3)]
      have hloopstep : finalizeLoop env (s ++ extra) (sb :: rest) =
          finalizeLoop env (s ++ (extra ++ [rnew])) rest := by
        simp only [finalizeLoop]
        rw [hcd]
        rw [List.append_assoc]
      obtain ⟨extra2, hloop, hex2, hfound⟩ := ih (extra ++ [rnew])
        (fun x hx => hbh x (by simp [hx]))
        (fun x hx => hmap x (by simp [hx]))
        (fun x hx => hck x (by simp [hx]))
        (fun x hx => hnd x (by simp [hx]))
        ((List.pairwise_cons.mp hpw).2)
        (by
          intro r hr
          rcases List.mem_append.mp hr with h1 | h1
          · exact hex r h1
          · have : r = rnew := by simpa using h1
            subst this
            exact ⟨hk3, hbh3, hbn3⟩)
        (by
          intro x hx r hr
          rcases List.mem_append.mp hr with h1 | h1
          · exact hdisj x (by simp [hx]) r h1
          · have : r = rnew := by simpa using h1
            subst this
            rw [hca3]
            exact (List.pairwise_cons.mp hpw).1 x hx)
      refine ⟨[rnew] ++ extra2, ?_, ?_, ?_⟩
      · rw [hloopstep, hloop]
        rw [show extra ++ ([rnew] ++ extra2) = (extra ++ [rnew]) ++ extra2 by
          rw [List.append_assoc]]
      · intro r hr
        rcases List.mem_append.mp hr with h1 | h1
        · have : r = rnew := by simpa using h1
          subst this
          exact ⟨hk3, hbh3, hbn3⟩
        · exact hex2 r h1
      · intro x hx
        rcases List.mem_cons.mp hx with h1 | h1
        · subst h1
          exact ⟨rnew, by simp, hca3, hst3⟩
        · obtain ⟨r, hr, hrc, hrs⟩ := hfound x h1
          exact ⟨r, by simp [hr], hrc, hrs⟩

/-- C2: after processCanonicalBlock on a block with staged diffs for
pairwise-distinct contracts (each holding a map payload, each with a prior
checkpoint not at this block, none with a permanent diff here yet), with the
outside-provided state-diff hook leaving the store alone, every staged contract owns
a permanent diff row at the block whose state equals the staged state, and
no diff_staged row remains at the block's number. -/
theorem c2_finalization_complete (env : Env) (hk : Store → Except String Store)
    (hkid : ∀ t, hk t = .ok t) (s : Store) (bh : String) (B : BlockProgress)
    (staged : List IPLDBlock)
    (hB : getBlockProgress env bh = some B)
    (hstaged : getIPLDBlocks s (some B.blockHash) none (some "diff_staged") none = staged)
    (hmap : ∀ sb ∈ staged, ∃ kvs, sb.data = Val.vmap kvs)
    (hck : ∀ sb ∈ staged, ∃ ck,
      getLatestIPLDBlock s sb.contractAddress (some "checkpoint") none = some ck ∧
      ck.blockHash ≠ B.blockHash)
    (hnd : ∀ sb ∈ staged,
      getIPLDBlocks s (some B.blockHash) (some sb.contractAddress) (some "diff") none = [])
    (hpw : staged.Pairwise (fun x y => x.contractAddress ≠ y.contractAddress)) :
    ∃ sf, processCanonicalBlock env hk s bh = .ok sf ∧
      (∀ sb ∈ staged, ∃ r ∈ sf, r.kind = "diff" ∧ r.blockHash = B.blockHash ∧
        r.contractAddress = sb.contractAddress ∧ stateOf r.data = stateOf sb.data) ∧
      (∀ r ∈ sf, ¬(r.kind = "diff_staged" ∧ r.blockNumber = B.blockNumber)) := by
  have hBh : B.blockHash = bh := by
    have h2 := List.find?_some hB
    simpa using h2
  have hbhs : ∀ sb ∈ staged, sb.blockHash = B.blockHash := by
    intro sb hm
    rw [← hstaged] at hm
    exact (mem_getIPLDBlocks_block_kind hm).2.1
  obtain ⟨extra2, hloop, hex2, hfound⟩ :=
    finalizeLoop_spec env s bh B hB hBh staged [] hbhs hmap hck hnd hpw
      (by simp) (by simp)
  rw [List.append_nil] at hloop
  rw [List.nil_append] at hloop
  have e2 : finalizeDiffStaged env s bh =
      (match finalizeLoop env s
          (getIPLDBlocks s (some B.blockHash) none (some "diff_staged") none) with
       | .error e => .error e
       | .ok s2 => .ok (removeStagedIPLDBlocks s2 B.blockNumber)) := by
    simp only [finalizeDiffStaged]
    rw [hB]
  rw [hstaged, hloop] at e2
  have e2b : finalizeDiffStaged env s bh =
      .ok (removeStagedIPLDBlocks (s ++ extra2) B.blockNumber) := e2.trans rfl
  have e3 : processCanonicalBlock env hk s bh =
      .ok (removeStagedIPLDBlocks (s ++ extra2) B.blockNumber) := by
    simp only [processCanonicalBlock]
    rw [e2b]
    simp [hkid]
  refine ⟨_, e3, ?_, ?_⟩
  · intro sb hm
    obtain ⟨r, hr, hrc, hrs⟩ := hfound sb hm
    obtain ⟨hk3, hbh3, hbn3⟩ := hex2 r hr
    refine ⟨r, ?_, hk3, hbh3, hrc, hrs⟩
    rw [removeStagedIPLDBlocks]
    apply List.mem_filter.mpr
    refine ⟨by simp [hr], ?_⟩
    simp [hk3]
  · intro r hr
    rw [removeStagedIPLDBlocks] at hr
    have h2 := (List.mem_filter.mp hr).2
    intro hcon
    rw [hcon.1, hcon.2] at h2
    simp at h2

/-- Witness for C2: one staged row for contract c1 at block 7, with its
checkpoint at block 3, finalized by processCanonicalBlock with an identity
hook. -/
theorem c2_finalization_complete_witness :
    (∀ t : Store, (Except.ok t : Except String Store) = Except.ok t) ∧
    getBlockProgress ⟨[⟨"h7", 7, "bc7", true⟩], ⟨7, 7, "h7", 7⟩⟩ "h7" =
        some ⟨"h7", 7, "bc7", true⟩ ∧
    getIPLDBlocks
        [⟨"h3", 3, "bc3", "c1", "cidck1", "checkpoint", Val.vmap [("state", Val.vint 0)]⟩,
         ⟨"h7", 7, "bc7", "c1", "cidst1", "diff_staged", Val.vmap [("state", Val.vint 10)]⟩]
        (some "h7") none (some "diff_staged") none =
      [⟨"h7", 7, "bc7", "c1", "cidst1", "diff_staged", Val.vmap [("state", Val.vint 10)]⟩] ∧
    ∃ sf, processCanonicalBlock ⟨[⟨"h7", 7, "bc7", true⟩], ⟨7, 7, "h7", 7⟩⟩ Except.ok
        [⟨"h3", 3, "bc3", "c1", "cidck1", "checkpoint", Val.vmap [("state", Val.vint 0)]⟩,
         ⟨"h7", 7, "bc7", "c1", "cidst1", "diff_staged", Val.vmap [("state", Val.vint 10)]⟩]
        "h7" = .ok sf ∧
      (∀ sb ∈ ([⟨"h7", 7, "bc7", "c1", "cidst1", "diff_staged",
          Val.vmap [("state", Val.vint 10)]⟩] : Store),
        ∃ r ∈ sf, r.kind = "diff" ∧ r.blockHash = "h7" ∧
          r.contractAddress = sb.contractAddress ∧ stateOf r.data = stateOf sb.data) ∧
      (∀ r ∈ sf, ¬(r.kind = "diff_staged" ∧ r.blockNumber = 7)) :=
  ⟨fun _ => rfl, rfl, rfl,
   c2_finalization_complete ⟨[⟨"h7", 7, "bc7", true⟩], ⟨7, 7, "h7", 7⟩⟩ Except.ok
     (fun _ => rfl)
     [⟨"h3", 3, "bc3", "c1", "cidck1", "checkpoint", Val.vmap [("state", Val.vint 0)]⟩,
      ⟨"h7", 7, "bc7", "c1", "cidst1", "diff_staged", Val.vmap [("state", Val.vint 10)]⟩]
     "h7" ⟨"h7", 7, "bc7", true⟩
     [⟨"h7", 7, "bc7", "c1", "cidst1", "diff_staged", Val.vmap [("state", Val.vint 10)]⟩]
     rfl rfl
     (by
       intro sb hm
       simp at hm
       subst hm
       exact ⟨[("state", Val.vint 10)], rfl⟩)
     (by
       intro sb hm
       simp at hm
       subst hm
       exact ⟨⟨"h3", 3, "bc3", "c1", "cidck1", "checkpoint",
         Val.vmap [("state", Val.vint 0)]⟩, rfl, by decide⟩)
     (by
       intro sb hm
       simp at hm
       subst hm
       rfl)
     (by simp)⟩
